import Mathlib

/-!
Verification of the Scryfall exploration client (`notebooks/api_explorer.py`).

The script is a linear pipeline: an HTTP wrapper (`_make_request`) fetches a
JSON payload, two analyzers (`explore_sets`, `explore_cards`) reduce the payload
to a flat summary dictionary, and a persister (`save_exploration_results`)
dumps a summary to a JSON file.  We give a shallow embedding: JSON payloads are
an inductive `JVal` (whose `null` constructor also models Python `None`, which
is what `json.loads` produces for JSON `null` and what `dict.get` returns for a
missing key), the network and the filesystem are explicit inputs, and each
Python function becomes a total Lean function returning an outcome that marks
the `{"error": ...}` branch and any unhandled Python exception (`crash`)
explicitly.
-/

namespace ApiExplorer

/-- JSON values as produced by `response.json()` / `json.loads`.  `null` also
models Python `None` so that `dict.get` on a missing key and a present JSON
`null` coincide, exactly as in Python. -/
inductive JVal where
  | null : JVal
  | bool : Bool → JVal
  | int : Int → JVal
  | str : String → JVal
  | arr : List JVal → JVal
  | obj : List (String × JVal) → JVal

mutual

/-- Structural (Python `==`) equality on JSON values. -/
def jeq : JVal → JVal → Bool
  | .null, .null => true
  | .bool a, .bool b => a == b
  | .int a, .int b => a == b
  | .str a, .str b => a == b
  | .arr xs, .arr ys => jeqList xs ys
  | .obj xs, .obj ys => jeqObj xs ys
  | _, _ => false

/-- Elementwise equality on JSON arrays. -/
def jeqList : List JVal → List JVal → Bool
  | [], [] => true
  | x :: xs, y :: ys => jeq x y && jeqList xs ys
  | _, _ => false

/-- Elementwise equality on JSON object field lists. -/
def jeqObj : List (String × JVal) → List (String × JVal) → Bool
  | [], [] => true
  | (k, v) :: xs, (l, w) :: ys => k == l && jeq v w && jeqObj xs ys
  | _, _ => false

end

/-- Python truthiness (`bool(x)`) on JSON values: `None`, `False`, `0`, `""`,
`[]` and `{}` are falsy, everything else is truthy. -/
def pyTruthy : JVal → Bool
  | .null => false
  | .bool b => b
  | .int n => n != 0
  | .str s => s != ""
  | .arr xs => !xs.isEmpty
  | .obj kvs => !kvs.isEmpty

/-- `d.get(k)` on a Python dict parsed from JSON: the first binding of `k`
(dict keys are unique after parsing), `None` (our `.null`) when missing. -/
def pyGet (kvs : List (String × JVal)) (k : String) : JVal :=
  match kvs.find? (fun kv => kv.1 == k) with
  | some kv => kv.2
  | none => .null

/-- `d.get(k, default)` with an explicit default. -/
def pyGetD (kvs : List (String × JVal)) (k : String) (d : JVal) : JVal :=
  match kvs.find? (fun kv => kv.1 == k) with
  | some kv => kv.2
  | none => d

/-- `list(d.keys())` of a Python dict. -/
def pyKeys (kvs : List (String × JVal)) : List String :=
  kvs.map Prod.fst

/-- Python slice `xs[:limit]` for an arbitrary (possibly negative) `limit`:
a nonnegative limit takes that many elements from the front, a negative one
drops `|limit|` elements from the back. -/
def pySliceTo (xs : List JVal) (limit : Int) : List JVal :=
  if 0 ≤ limit then xs.take limit.toNat
  else xs.take (xs.length - (-limit).toNat)

/-- Insertion into a Python `set`, modelled as an insertion-ordered list of
distinct elements (iteration order of a Python set is unspecified; every claim
about these sets is order-independent). -/
def setAdd (s : List JVal) (v : JVal) : List JVal :=
  if s.any (fun w => jeq w v) then s else s ++ [v]

/-- `set.update(xs)`: insert every element of the iterated list. -/
def setUpdate (s : List JVal) (xs : List JVal) : List JVal :=
  xs.foldl setAdd s

/-- ASCII whitespace as stripped by Python `str.strip()` (the Unicode-only
space classes never occur in the payloads and examples at issue). -/
def pyIsSpace (c : Char) : Bool :=
  c = ' ' || c = '\t' || c = '\n' || c = '\r' || c = '\x0b' || c = '\x0c'

/-- Python `s.strip()` on the character list of a string. -/
def stripChars (cs : List Char) : List Char :=
  ((cs.dropWhile pyIsSpace).reverse.dropWhile pyIsSpace).reverse

/-- `type_line.split('-')[0].strip()` — the characters before the first ASCII
hyphen (the whole string when there is none: the em-dash `—` is not `'-'`),
then stripped of surrounding whitespace.  From `api_explorer.py` line 186. -/
def typeBucket (s : String) : String :=
  String.mk (stripChars (s.data.takeWhile (fun c => c ≠ '-')))

/-- Severity of a log line emitted through `loguru`. -/
inductive LogLevel where
  | info : LogLevel
  | success : LogLevel
  | error : LogLevel
deriving DecidableEq, Repr

/-- One structured log line: severity and message. -/
structure LogEntry where
  level : LogLevel
  msg : String
deriving DecidableEq, Repr

/-- Outcome of the underlying HTTP exchange, as seen by `_make_request` after
`session.get` / `raise_for_status` / `response.json()`:
either a decoded JSON body, a transport-level failure
(`requests.exceptions.RequestException`: connection error, timeout, non-2xx
status), or a JSON-decode failure on the body. -/
inductive HttpOutcome where
  | ok : JVal → HttpOutcome
  | transportError : String → HttpOutcome
  | badJson : String → HttpOutcome

/-- `_make_request` (lines 48-80): logs the request, performs the exchange and
returns the decoded body, or logs the failure and returns `None`.  The URL and
rate-limiting sleep have no bearing on the value; the exchange itself is the
explicit `outcome` input. -/
def make_request (endpoint : String) (ps : Option (List (String × String)))
    (outcome : HttpOutcome) : Option JVal × List LogEntry :=
  let url := "https://api.scryfall.com" ++ endpoint
  let head := [LogEntry.mk .info ("Fazendo requisição para: " ++ url)] ++
    (match ps with
     | some _ => [LogEntry.mk .info "Parâmetros: ..."]
     | none => [])
  match outcome with
  | .ok body => (some body, head ++ [LogEntry.mk .success "Requisição bem-sucessida"])
  | .transportError e =>
      (none, head ++ [LogEntry.mk .error ("Erro na requisição para " ++ url ++ ": " ++ e)])
  | .badJson e =>
      (none, head ++ [LogEntry.mk .error ("Erro ao decodificar JSON de " ++ url ++ ": " ++ e)])

/-- The `set_info` record built for each sampled set entry (lines 110-118);
each field is `set_data.get(...)`, hence `.null` when missing. -/
structure SetInfo where
  object : JVal
  code : JVal
  name : JVal
  set_type : JVal
  card_count : JVal
  released_at : JVal
  keys : List String

/-- The `analysis` dict built by `explore_sets` (lines 99-130), after
`set_types` has been materialized into a list. -/
structure SetsAnalysis where
  total_sets : Nat
  structure_keys : List String
  sample_sets : List SetInfo
  set_types : List JVal
  oldest : Option String
  newest : Option String

/-- `if not oldest or release_date < oldest: oldest = release_date`
(lines 126-127); `None` is falsy, and comparison is Python string `<`. -/
def updateOldest (oldest : Option String) (d : String) : Option String :=
  match oldest with
  | none => some d
  | some o => if o = "" then some d else if d < o then some d else some o

/-- `if not newest or release_date > newest: newest = release_date`
(lines 128-129). -/
def updateNewest (newest : Option String) (d : String) : Option String :=
  match newest with
  | none => some d
  | some o => if o = "" then some d else if o < d then some d else some o

/-- The `set_info` dict built at lines 110-118 for one sampled entry. -/
def mkSetInfo (e : List (String × JVal)) : SetInfo :=
  { object := pyGet e "object", code := pyGet e "code", name := pyGet e "name"
    set_type := pyGet e "set_type", card_count := pyGet e "card_count"
    released_at := pyGet e "released_at", keys := pyKeys e }

/-- One iteration of the `explore_sets` sampling loop (lines 109-129) on an
entry already known to be a dict: append the `set_info`, add the `set_type`
to the set, and when `released_at` is truthy fold it into the date range;
`none` models an unhandled exception (`release_date < oldest` on a
non-string truthy date). -/
def setsStep (a : SetsAnalysis) (e : List (String × JVal)) : Option SetsAnalysis :=
  if pyTruthy (pyGet e "released_at") then
    match pyGet e "released_at" with
    | .str d => some { a with sample_sets := a.sample_sets ++ [mkSetInfo e]
                              set_types := setAdd a.set_types (pyGet e "set_type")
                              oldest := updateOldest a.oldest d
                              newest := updateNewest a.newest d }
    | _ => none
  else some { a with sample_sets := a.sample_sets ++ [mkSetInfo e]
                     set_types := setAdd a.set_types (pyGet e "set_type") }

/-- Left fold of `setsStep` with crash propagation. -/
def setsLoop : SetsAnalysis → List (List (String × JVal)) → Option SetsAnalysis
  | a, [] => some a
  | a, e :: es =>
    match setsStep a e with
    | some a₂ => setsLoop a₂ es
    | none => none

/-- Result of an analyzer call: the `{"error": ...}` dict, the summary dict, or
an unhandled Python exception escaping the function. -/
inductive SetsOutcome where
  | error : String → SetsOutcome
  | summary : SetsAnalysis → SetsOutcome
  | crash : SetsOutcome

/-- View each sampled element as a dict, crashing (as `entry.get` would) on a
non-dict element. -/
def asObj : JVal → Option (List (String × JVal))
  | .obj kvs => some kvs
  | _ => none

/-- View every sampled element as a dict; the loop would crash at the first
non-dict element, so the whole sample crashes exactly when one exists. -/
def allObjs : List JVal → Option (List (List (String × JVal)))
  | [] => some []
  | x :: xs =>
    match asObj x, allObjs xs with
    | some o, some os => some (o :: os)
    | _, _ => none

/-- The length of the `data` collection, `len(sets_data.get('data', []))`;
`none` models `len` on a value that a later subscript/iteration would reject
(we only ever invoke the analyzers on payloads whose `data`, when present, is
an array). -/
def dataEntries (kvs : List (String × JVal)) : Option (List JVal) :=
  match pyGetD kvs "data" (.arr []) with
  | .arr xs => some xs
  | _ => none

/-- The `analysis` dict as initialized at lines 99-106, before the sampling
loop. -/
def setsInit (kvs : List (String × JVal)) (entries : List JVal) : SetsAnalysis :=
  { total_sets := entries.length, structure_keys := pyKeys kvs
    sample_sets := [], set_types := [], oldest := none, newest := none }

/-- `explore_sets` (lines 82-135).  `fetched` is the value returned by
`_make_request("/sets")`. -/
def explore_sets (fetched : Option JVal) (limit : Int) : SetsOutcome :=
  match fetched with
  | none => .error "Falha ao obter dados dos sets"
  | some payload =>
    if pyTruthy payload then
      match payload with
      | .obj kvs =>
        match dataEntries kvs with
        | none => .crash
        | some entries =>
          match allObjs (pySliceTo entries limit) with
          | none => .crash
          | some sampled =>
            match setsLoop (setsInit kvs entries) sampled with
            | some a => .summary a
            | none => .crash
      | _ => .crash
    else .error "Falha ao obter dados dos sets"

/-- The `card_info` record built for each sampled card (lines 170-180). -/
structure CardInfo where
  name : JVal
  mana_cost : JVal
  type_line : JVal
  rarity : JVal
  colors : JVal
  set : JVal
  lang : JVal
  keys : List String
  total_keys : Nat

/-- The `analysis` dict built by `explore_cards` (lines 157-198), after the
four accumulator sets have been materialized into lists. -/
structure CardsAnalysis where
  total_cards : JVal
  has_more : JVal
  structure_keys : List String
  sample_cards : List CardInfo
  card_types : List JVal
  colors : List JVal
  rarities : List JVal
  languages : List JVal

/-- The `card_info` dict built at lines 170-180 for one sampled card. -/
def mkCardInfo (c : List (String × JVal)) : CardInfo :=
  { name := pyGet c "name", mana_cost := pyGet c "mana_cost"
    type_line := pyGet c "type_line", rarity := pyGet c "rarity"
    colors := pyGetD c "colors" (.arr []), set := pyGet c "set"
    lang := pyGet c "lang", keys := pyKeys c, total_keys := (pyKeys c).length }

/-- `if card.get('type_line'): card_types.add(card.get('type_line').split('-')[0].strip())`
(lines 185-186); a truthy non-string `type_line` would raise on `.split`. -/
def addTypes (a : CardsAnalysis) (c : List (String × JVal)) : Option CardsAnalysis :=
  if pyTruthy (pyGet c "type_line") then
    match pyGet c "type_line" with
    | .str s => some { a with card_types := setAdd a.card_types (.str (typeBucket s)) }
    | _ => none
  else some a

/-- `if card.get('rarity'): rarities.add(card.get('rarity'))` (lines 187-188). -/
def addRarity (a : CardsAnalysis) (c : List (String × JVal)) : CardsAnalysis :=
  if pyTruthy (pyGet c "rarity")
  then { a with rarities := setAdd a.rarities (pyGet c "rarity") } else a

/-- `if card.get('colors'): colors.update(card.get('colors'))` (lines
189-190); a truthy non-array would raise on `set.update`. -/
def addColors (a : CardsAnalysis) (c : List (String × JVal)) : Option CardsAnalysis :=
  if pyTruthy (pyGet c "colors") then
    match pyGet c "colors" with
    | .arr xs => some { a with colors := setUpdate a.colors xs }
    | _ => none
  else some a

/-- `if card.get('lang'): languages.add(card.get('lang'))` (lines 191-192). -/
def addLang (a : CardsAnalysis) (c : List (String × JVal)) : CardsAnalysis :=
  if pyTruthy (pyGet c "lang")
  then { a with languages := setAdd a.languages (pyGet c "lang") } else a

/-- One iteration of the `explore_cards` sampling loop (lines 169-192):
append the `card_info`, then run the four guarded accumulations in source
order; `none` models an unhandled exception. -/
def cardsStep (a : CardsAnalysis) (c : List (String × JVal)) : Option CardsAnalysis :=
  match addTypes { a with sample_cards := a.sample_cards ++ [mkCardInfo c] } c with
  | none => none
  | some a₁ =>
    match addColors (addRarity a₁ c) c with
    | none => none
    | some a₂ => some (addLang a₂ c)

/-- Left fold of `cardsStep` with crash propagation. -/
def cardsLoop : CardsAnalysis → List (List (String × JVal)) → Option CardsAnalysis
  | a, [] => some a
  | a, c :: cs =>
    match cardsStep a c with
    | some a₂ => cardsLoop a₂ cs
    | none => none

/-- Result of `explore_cards`. -/
inductive CardsOutcome where
  | error : String → CardsOutcome
  | summary : CardsAnalysis → CardsOutcome
  | crash : CardsOutcome

/-- The `analysis` dict as initialized at lines 157-166, before the sampling
loop. -/
def cardsInit (kvs : List (String × JVal)) : CardsAnalysis :=
  { total_cards := pyGetD kvs "total_cards" (.int 0)
    has_more := pyGetD kvs "has_more" (.bool false)
    structure_keys := pyKeys kvs, sample_cards := []
    card_types := [], colors := [], rarities := [], languages := [] }

/-- `explore_cards` (lines 137-201).  `fetched` is the value returned by
`_make_request("/cards/search", params)` for the query `set:<set_core>`. -/
def explore_cards (set_core : String) (fetched : Option JVal) (limit : Int) : CardsOutcome :=
  match fetched with
  | none => .error ("Falha ao obter cartas do set " ++ set_core)
  | some payload =>
    if pyTruthy payload then
      match payload with
      | .obj kvs =>
        match dataEntries kvs with
        | none => .crash
        | some entries =>
          match allObjs (pySliceTo entries limit) with
          | none => .crash
          | some sampled =>
            match cardsLoop (cardsInit kvs) sampled with
            | some a => .summary a
            | none => .crash
      | _ => .crash
    else .error ("Falha ao obter cartas do set " ++ set_core)

/-- Lowercase hexadecimal digit, as `'%04x' % n` uses. -/
def hexChar (n : Nat) : Char :=
  if n < 10 then Char.ofNat (48 + n) else Char.ofNat (87 + n)

/-- Escaping of one character by `json.dump(..., ensure_ascii=False)`: quote,
backslash and the named control escapes get two-character escapes, the
remaining control characters become `\u00xx`, everything else (including
non-ASCII) is written verbatim. -/
def escChar (c : Char) : List Char :=
  if c = '"' then ['\\', '"']
  else if c = '\\' then ['\\', '\\']
  else if c = '\n' then ['\\', 'n']
  else if c = '\r' then ['\\', 'r']
  else if c = '\t' then ['\\', 't']
  else if c = '\x08' then ['\\', 'b']
  else if c = '\x0c' then ['\\', 'f']
  else if c.toNat < 32 then ['\\', 'u', '0', '0', hexChar (c.toNat / 16), hexChar (c.toNat % 16)]
  else [c]

/-- Escaping of a whole string body. -/
def escChars (cs : List Char) : List Char :=
  (cs.map escChar).flatten

/-- Decimal digits of a natural number, most significant first. -/
def natChars (n : Nat) : List Char :=
  if n = 0 then ['0']
  else ((Nat.digits 10 n).map (fun d => Char.ofNat (48 + d))).reverse

/-- Python `repr` of an integer. -/
def intChars (n : Int) : List Char :=
  if n < 0 then '-' :: natChars (-n).toNat else natChars n.toNat

/-- `indent` padding: `n` spaces. -/
def pad (n : Nat) : List Char :=
  List.replicate n ' '

mutual

/-- `json.dump(v, f, indent=2, ensure_ascii=False)` at indentation level
`lvl`: containers open with a newline, children are indented two further
spaces, items are separated by `",\n"`, keys by `": "`, and the closing
bracket returns to level `lvl`.  Empty containers print inline. -/
def jdumpVal : Nat → JVal → List Char
  | _, .null => ['n', 'u', 'l', 'l']
  | _, .bool true => ['t', 'r', 'u', 'e']
  | _, .bool false => ['f', 'a', 'l', 's', 'e']
  | _, .int n => intChars n
  | _, .str s => '"' :: (escChars s.data ++ ['"'])
  | _, .arr [] => ['[', ']']
  | lvl, .arr (x :: xs) =>
      '[' :: '\n' :: (pad (lvl + 2) ++ jdumpVal (lvl + 2) x ++ jdumpItems (lvl + 2) xs
        ++ '\n' :: (pad lvl ++ [']']))
  | _, .obj [] => ['\x7b', '\x7d']
  | lvl, .obj (kv :: kvs) =>
      '\x7b' :: '\n' :: (pad (lvl + 2) ++ jdumpField (lvl + 2) kv ++ jdumpFields (lvl + 2) kvs
        ++ '\n' :: (pad lvl ++ ['\x7d']))

/-- Trailing array items, each preceded by `",\n"` and padding. -/
def jdumpItems : Nat → List JVal → List Char
  | _, [] => []
  | lvl, x :: xs => ',' :: '\n' :: (pad lvl ++ jdumpVal lvl x ++ jdumpItems lvl xs)

/-- One `"key": value` field. -/
def jdumpField : Nat → String × JVal → List Char
  | lvl, (k, v) => '"' :: (escChars k.data ++ '"' :: ':' :: ' ' :: jdumpVal lvl v)

/-- Trailing object fields, each preceded by `",\n"` and padding. -/
def jdumpFields : Nat → List (String × JVal) → List Char
  | _, [] => []
  | lvl, kv :: kvs => ',' :: '\n' :: (pad lvl ++ jdumpField lvl kv ++ jdumpFields lvl kvs)

end

/-- The serialized file content written by `json.dump(results, f, indent=2,
ensure_ascii=False)`. -/
def jdumps (v : JVal) : String :=
  String.mk (jdumpVal 0 v)

/-- `Path(d).mkdir(parents=True, exist_ok=True)` for one directory on a
filesystem modelled as its list of existing directories. -/
def addDir (dirs : List String) (d : String) : List String :=
  if dirs.contains d then dirs else dirs ++ [d]

/-- Observable effect of one `save_exploration_results` call: the directories
existing afterwards, the file written (path and content) when the write
succeeded, the log lines, and the Python return value. -/
structure SaveResult where
  dirs : List String
  written : Option (String × String)
  log : List LogEntry
  retval : JVal

/-- `save_exploration_results` (lines 231-250): creates `data/exploration`
(with parent, idempotently), then tries to dump `results`; the `except
Exception` clause turns any write failure (`writeOk = false`) into a logged
error, so the function always returns normally — and it has no `return`
statement, so the Python return value is `None` on both paths. -/
def save_exploration_results (dirs0 : List String) (writeOk : Bool)
    (results : JVal) (filename : String) : SaveResult :=
  let dirs1 := addDir (addDir dirs0 "data") "data/exploration"
  let filepath := "data/exploration/" ++ filename
  if writeOk then
    { dirs := dirs1, written := some (filepath, jdumps results)
      log := [⟨.success, "Resultados salvos em: " ++ filepath⟩], retval := .null }
  else
    { dirs := dirs1, written := none
      log := [⟨.error, "Erro ao salvar " ++ filepath⟩], retval := .null }

/-- JSON whitespace (space, tab, newline, carriage return). -/
def isWsCh (c : Char) : Bool :=
  c = ' ' || c = '\t' || c = '\n' || c = '\r'

/-- Skip insignificant whitespace, as the decoder does between tokens. -/
def skipWs (cs : List Char) : List Char :=
  cs.dropWhile isWsCh

/-- ASCII decimal digit test. -/
def isDigitCh (c : Char) : Bool :=
  48 ≤ c.toNat && c.toNat ≤ 57

/-- Value of one hexadecimal digit (either case). -/
def hexVal (c : Char) : Option Nat :=
  if 48 ≤ c.toNat && c.toNat ≤ 57 then some (c.toNat - 48)
  else if 97 ≤ c.toNat && c.toNat ≤ 102 then some (c.toNat - 87)
  else if 65 ≤ c.toNat && c.toNat ≤ 70 then some (c.toNat - 55)
  else none

/-- The two-character string escapes accepted by the decoder. -/
def decodeEsc (e : Char) : Option Char :=
  if e = '"' then some '"'
  else if e = '\\' then some '\\'
  else if e = '/' then some '/'
  else if e = 'n' then some '\n'
  else if e = 'r' then some '\r'
  else if e = 't' then some '\t'
  else if e = 'b' then some '\x08'
  else if e = 'f' then some '\x0c'
  else none

/-- A `\uXXXX` escape; fails on code points that are not Unicode scalar
values (lone surrogates never occur in the encoder's output). -/
def decodeHex4 (h1 h2 h3 h4 : Char) : Option Char :=
  match hexVal h1, hexVal h2, hexVal h3, hexVal h4 with
  | some a, some b, some c, some d =>
    let n := ((a * 16 + b) * 16 + c) * 16 + d
    if n.isValidChar then some (Char.ofNat n) else none
  | _, _, _, _ => none

/-- Decode a string body after the opening quote, up to and past the closing
quote, resolving escapes. -/
def parseStringBody : List Char → Option (List Char × List Char)
  | [] => none
  | c :: cs =>
    if c = '"' then some ([], cs)
    else if c = '\\' then
      match cs with
      | 'u' :: h1 :: h2 :: h3 :: h4 :: cs2 =>
        match decodeHex4 h1 h2 h3 h4, parseStringBody cs2 with
        | some ch, some (body, rest) => some (ch :: body, rest)
        | _, _ => none
      | e :: cs2 =>
        match decodeEsc e, parseStringBody cs2 with
        | some ch, some (body, rest) => some (ch :: body, rest)
        | _, _ => none
      | [] => none
    else
      match parseStringBody cs with
      | some (body, rest) => some (c :: body, rest)
      | none => none

/-- Value of a nonempty digit run, most significant first. -/
def digitsVal (cs : List Char) : Nat :=
  cs.foldl (fun a c => a * 10 + (c.toNat - 48)) 0

/-- Decode an integer literal (the only number shape the encoder emits; the
fraction/exponent forms of full JSON are not needed for the round trip). -/
def parseNum (cs : List Char) : Option (JVal × List Char) :=
  match cs with
  | [] => none
  | c :: cs2 =>
    if c = '-' then
      if (cs2.takeWhile isDigitCh).isEmpty then none
      else some (.int (-(digitsVal (cs2.takeWhile isDigitCh) : Int)),
        cs2.dropWhile isDigitCh)
    else
      if ((c :: cs2).takeWhile isDigitCh).isEmpty then none
      else some (.int (digitsVal ((c :: cs2).takeWhile isDigitCh)),
        (c :: cs2).dropWhile isDigitCh)

/-- Python-dict construction from parsed key/value pairs: a repeated key
overwrites the value at the key's first position, as `dict` does. -/
def insertKV (acc : List (String × JVal)) (k : String) (v : JVal) : List (String × JVal) :=
  if acc.any (fun kv => kv.1 == k) then
    acc.map (fun kv => if kv.1 == k then (k, v) else kv)
  else acc ++ [(k, v)]

/-- Fold `insertKV` over a parsed field list. -/
def dictify (kvs : List (String × JVal)) : List (String × JVal) :=
  kvs.foldl (fun acc kv => insertKV acc kv.1 kv.2) []

mutual

/-- Recursive-descent JSON value decoder, modelled on `json.loads`: skip
whitespace, dispatch on the first character.  `fuel` bounds the recursion
depth; `jloads` supplies more than any input can consume. -/
def parseVal : Nat → List Char → Option (JVal × List Char)
  | 0, _ => none
  | fuel + 1, input =>
    match skipWs input with
    | [] => none
    | c :: cs =>
      if c = 'n' then
        match cs with
        | 'u' :: 'l' :: 'l' :: rest => some (.null, rest)
        | _ => none
      else if c = 't' then
        match cs with
        | 'r' :: 'u' :: 'e' :: rest => some (.bool true, rest)
        | _ => none
      else if c = 'f' then
        match cs with
        | 'a' :: 'l' :: 's' :: 'e' :: rest => some (.bool false, rest)
        | _ => none
      else if c = '"' then
        match parseStringBody cs with
        | some (body, rest) => some (.str (String.mk body), rest)
        | none => none
      else if c = '[' then
        match skipWs cs with
        | [] => none
        | c₂ :: cs₂ =>
          if c₂ = ']' then some (.arr [], cs₂)
          else
            match parseItems fuel (c₂ :: cs₂) with
            | some (xs, rest) => some (.arr xs, rest)
            | none => none
      else if c = '\x7b' then
        match skipWs cs with
        | [] => none
        | c₂ :: cs₂ =>
          if c₂ = '\x7d' then some (.obj [], cs₂)
          else
            match parseFields fuel (c₂ :: cs₂) with
            | some (kvs, rest) => some (.obj (dictify kvs), rest)
            | none => none
      else
        parseNum (c :: cs)

/-- One or more comma-separated array items, up to and past the closing
bracket. -/
def parseItems : Nat → List Char → Option (List JVal × List Char)
  | 0, _ => none
  | fuel + 1, input =>
    match parseVal fuel input with
    | none => none
    | some (v, rest) =>
      match skipWs rest with
      | [] => none
      | c :: rest2 =>
        if c = ',' then
          match parseItems fuel rest2 with
          | some (xs, rest3) => some (v :: xs, rest3)
          | none => none
        else if c = ']' then some ([v], rest2)
        else none

/-- One or more comma-separated `"key": value` fields, up to and past the
closing brace. -/
def parseFields : Nat → List Char → Option (List (String × JVal) × List Char)
  | 0, _ => none
  | fuel + 1, input =>
    match skipWs input with
    | [] => none
    | c :: cs =>
      if c = '"' then
        match parseStringBody cs with
        | none => none
        | some (key, rest) =>
          match skipWs rest with
          | [] => none
          | c₂ :: rest2 =>
            if c₂ = ':' then
              match parseVal fuel rest2 with
              | none => none
              | some (v, rest3) =>
                match skipWs rest3 with
                | [] => none
                | c₃ :: rest4 =>
                  if c₃ = ',' then
                    match parseFields fuel rest4 with
                    | some (kvs, rest5) => some ((String.mk key, v) :: kvs, rest5)
                    | none => none
                  else if c₃ = '\x7d' then some ([(String.mk key, v)], rest4)
                  else none
            else none
      else none

end

/-- `json.loads` on a file's content: decode one value, then require only
whitespace to remain. -/
def jloads (s : String) : Option JVal :=
  match parseVal (s.data.length + 1) s.data with
  | some (v, rest) => if (skipWs rest).isEmpty then some v else none
  | none => none

mutual

/-- Node count of a JSON value, used to budget decoder fuel. -/
def jsize : JVal → Nat
  | .null => 1
  | .bool _ => 1
  | .int _ => 1
  | .str _ => 1
  | .arr xs => 1 + jsizeList xs
  | .obj kvs => 1 + jsizeObj kvs

/-- Node count of an item list. -/
def jsizeList : List JVal → Nat
  | [] => 1
  | x :: xs => 1 + jsize x + jsizeList xs

/-- Node count of a field list. -/
def jsizeObj : List (String × JVal) → Nat
  | [] => 1
  | kv :: kvs => 1 + jsize kv.2 + jsizeObj kvs

end

/-- No key occurs twice. -/
def distinctKeys : List String → Bool
  | [] => true
  | k :: ks => !(ks.contains k) && distinctKeys ks

mutual

/-- A JSON value is a faithful image of a Python object when every object in
it has distinct keys — which holds of every dict the script builds or
parses. -/
def jwf : JVal → Bool
  | .null => true
  | .bool _ => true
  | .int _ => true
  | .str _ => true
  | .arr xs => jwfList xs
  | .obj kvs => distinctKeys (kvs.map Prod.fst) && jwfObj kvs

/-- `jwf` on every element. -/
def jwfList : List JVal → Bool
  | [] => true
  | x :: xs => jwf x && jwfList xs

/-- `jwf` on every field value. -/
def jwfObj : List (String × JVal) → Bool
  | [] => true
  | kv :: kvs => jwf kv.2 && jwfObj kvs

end

/-- Discriminator: is this JSON value a string? -/
def isStr : JVal → Bool
  | .str _ => true
  | _ => false

/-- The input following a decoded value must not begin with a digit, or the
decoder would absorb it into a preceding numeric literal; every continuation
the encoder produces (`,`, `]`, a brace, newline, or end of input) satisfies
this. -/
def numSafe : List Char → Prop
  | [] => True
  | c :: _ => isDigitCh c = false

/-- `sample_sets` length of a sets outcome, when it is a summary. -/
def sampleLenOf : SetsOutcome → Option Nat
  | .summary a => some a.sample_sets.length
  | _ => none

/-- `sample_sets` of a sets outcome, when it is a summary. -/
def sampleSetsOf : SetsOutcome → Option (List SetInfo)
  | .summary a => some a.sample_sets
  | _ => none

/-- `total_sets` of a sets outcome, when it is a summary. -/
def totalSetsOf : SetsOutcome → Option Nat
  | .summary a => some a.total_sets
  | _ => none

/-- `set_types` of a sets outcome, when it is a summary. -/
def setTypesOf : SetsOutcome → Option (List JVal)
  | .summary a => some a.set_types
  | _ => none

/-- `date_range` of a sets outcome, when it is a summary. -/
def dateRangeOf : SetsOutcome → Option (Option String × Option String)
  | .summary a => some (a.oldest, a.newest)
  | _ => none

/-- `card_types` of a cards outcome, when it is a summary. -/
def cardTypesOf : CardsOutcome → Option (List JVal)
  | .summary a => some a.card_types
  | _ => none

/-- `colors` of a cards outcome, when it is a summary. -/
def colorsOf : CardsOutcome → Option (List JVal)
  | .summary a => some a.colors
  | _ => none

/-! ## Helper lemmas -/

theorem mem_addDir_self (dirs : List String) (d : String) : d ∈ addDir dirs d := by
  unfold addDir
  split
  · next h => exact List.mem_of_elem_eq_true h
  · exact List.mem_append_right _ (List.mem_singleton.mpr rfl)

theorem mem_addDir_of_mem (dirs : List String) (d e : String) (h : d ∈ dirs) :
    d ∈ addDir dirs e := by
  unfold addDir
  split
  · exact h
  · exact List.mem_append_left _ h

theorem addDir_idem (dirs : List String) (d : String) (h : d ∈ dirs) :
    addDir dirs d = dirs := by
  unfold addDir
  split
  · rfl
  · next hc => exact absurd (List.elem_eq_true_of_mem h) (by simpa using hc)

theorem allObjs_length : ∀ (xs : List JVal) (ys : List (List (String × JVal))),
    allObjs xs = some ys → ys.length = xs.length := by
  intro xs
  induction xs with
  | nil =>
    intro ys h
    rw [allObjs, Option.some_inj] at h
    simp [← h]
  | cons x xs ih =>
    intro ys h
    rw [allObjs] at h
    cases hx : asObj x with
    | none => rw [hx] at h; cases h
    | some o =>
      cases hm : allObjs xs with
      | none => rw [hx, hm] at h; cases h
      | some os =>
        rw [hx, hm, Option.some_inj] at h
        simp [← h, ih os hm]

theorem setsStep_some (a : SetsAnalysis) (e : List (String × JVal)) (a₂ : SetsAnalysis)
    (h : setsStep a e = some a₂) :
    a₂.sample_sets = a.sample_sets ++ [mkSetInfo e] ∧
    a₂.total_sets = a.total_sets ∧
    a₂.structure_keys = a.structure_keys ∧
    a₂.set_types = setAdd a.set_types (pyGet e "set_type") := by
  unfold setsStep at h
  split at h
  · split at h <;> first
      | (rw [Option.some_inj] at h; subst h; exact ⟨rfl, rfl, rfl, rfl⟩)
      | cases h
  · rw [Option.some_inj] at h
    subst h
    exact ⟨rfl, rfl, rfl, rfl⟩

theorem setsLoop_some : ∀ (es : List (List (String × JVal))) (a a₂ : SetsAnalysis),
    setsLoop a es = some a₂ →
    a₂.sample_sets = a.sample_sets ++ es.map mkSetInfo ∧
    a₂.total_sets = a.total_sets ∧
    a₂.structure_keys = a.structure_keys := by
  intro es
  induction es with
  | nil =>
    intro a a₂ h
    rw [setsLoop, Option.some_inj] at h
    subst h
    simp
  | cons e es ih =>
    intro a a₂ h
    rw [setsLoop] at h
    cases hs : setsStep a e with
    | none => rw [hs] at h; cases h
    | some a₁ =>
      rw [hs] at h
      obtain ⟨hss, hts, hsk, _⟩ := setsStep_some a e a₁ hs
      obtain ⟨ih1, ih2, ih3⟩ := ih a₁ a₂ h
      refine ⟨?_, by rw [ih2, hts], by rw [ih3, hsk]⟩
      rw [ih1, hss]
      simp

theorem explore_sets_summary (kvs : List (String × JVal)) (entries : List JVal)
    (sampled : List (List (String × JVal))) (limit : Int) (a : SetsAnalysis)
    (h1 : dataEntries kvs = some entries)
    (h2 : allObjs (pySliceTo entries limit) = some sampled)
    (h3 : explore_sets (some (.obj kvs)) limit = .summary a) :
    setsLoop (setsInit kvs entries) sampled = some a := by
  cases ht : pyTruthy (JVal.obj kvs) with
  | false =>
    simp only [explore_sets, ht, Bool.false_eq_true, if_false] at h3
    cases h3
  | true =>
    simp only [explore_sets, ht, if_true, h1, h2] at h3
    cases hl : setsLoop (setsInit kvs entries) sampled with
    | none => rw [hl] at h3; cases h3
    | some a₁ =>
      rw [hl] at h3
      cases h3
      rfl

theorem updateOldest_some_le (o : Option String) (d : String) :
    ∃ o₂, updateOldest o d = some o₂ ∧ o₂ ≤ d := by
  cases o with
  | none => exact ⟨d, rfl, le_refl d⟩
  | some s =>
    simp only [updateOldest]
    by_cases hs : s = ""
    · exact ⟨d, by rw [if_pos hs], le_refl d⟩
    · rw [if_neg hs]
      by_cases hlt : d < s
      · exact ⟨d, by rw [if_pos hlt], le_refl d⟩
      · exact ⟨s, by rw [if_neg hlt], le_of_not_lt hlt⟩

theorem updateNewest_some_ge (o : Option String) (d : String) :
    ∃ n₂, updateNewest o d = some n₂ ∧ d ≤ n₂ := by
  cases o with
  | none => exact ⟨d, rfl, le_refl d⟩
  | some s =>
    simp only [updateNewest]
    by_cases hs : s = ""
    · exact ⟨d, by rw [if_pos hs], le_refl d⟩
    · rw [if_neg hs]
      by_cases hlt : s < d
      · exact ⟨d, by rw [if_pos hlt], le_refl d⟩
      · exact ⟨s, by rw [if_neg hlt], le_of_not_lt hlt⟩

theorem updateOldest_mono (s d : String) (hs : s ≠ "") :
    ∃ o₂, updateOldest (some s) d = some o₂ ∧ o₂ ≤ s := by
  simp only [updateOldest]
  rw [if_neg hs]
  by_cases hlt : d < s
  · exact ⟨d, by rw [if_pos hlt], le_of_lt hlt⟩
  · exact ⟨s, by rw [if_neg hlt], le_refl s⟩

theorem updateNewest_mono (s d : String) (hs : s ≠ "") :
    ∃ n₂, updateNewest (some s) d = some n₂ ∧ s ≤ n₂ := by
  simp only [updateNewest]
  rw [if_neg hs]
  by_cases hlt : s < d
  · exact ⟨d, by rw [if_pos hlt], le_of_lt hlt⟩
  · exact ⟨s, by rw [if_neg hlt], le_refl s⟩

theorem updateOldest_ne_empty (o : Option String) (d : String) (hd : d ≠ "")
    (ho : ∀ s, o = some s → s ≠ "") :
    ∀ s₂, updateOldest o d = some s₂ → s₂ ≠ "" := by
  intro s₂ h
  cases o with
  | none => rw [updateOldest, Option.some_inj] at h; subst h; exact hd
  | some s =>
    have hs := ho s rfl
    simp only [updateOldest] at h
    rw [if_neg hs] at h
    by_cases hlt : d < s
    · rw [if_pos hlt, Option.some_inj] at h; subst h; exact hd
    · rw [if_neg hlt, Option.some_inj] at h; subst h; exact hs

theorem updateNewest_ne_empty (o : Option String) (d : String) (hd : d ≠ "")
    (ho : ∀ s, o = some s → s ≠ "") :
    ∀ s₂, updateNewest o d = some s₂ → s₂ ≠ "" := by
  intro s₂ h
  cases o with
  | none => rw [updateNewest, Option.some_inj] at h; subst h; exact hd
  | some s =>
    have hs := ho s rfl
    simp only [updateNewest] at h
    rw [if_neg hs] at h
    by_cases hlt : s < d
    · rw [if_pos hlt, Option.some_inj] at h; subst h; exact hd
    · rw [if_neg hlt, Option.some_inj] at h; subst h; exact hs

theorem setsStep_dates (a : SetsAnalysis) (e : List (String × JVal)) (a₂ : SetsAnalysis)
    (h : setsStep a e = some a₂) :
    (pyTruthy (pyGet e "released_at") = false ∧ a₂.oldest = a.oldest ∧ a₂.newest = a.newest) ∨
    (∃ d, pyGet e "released_at" = .str d ∧ d ≠ "" ∧
      a₂.oldest = updateOldest a.oldest d ∧ a₂.newest = updateNewest a.newest d) := by
  unfold setsStep at h
  split at h
  next hc =>
    split at h
    next d heq =>
      right
      refine ⟨d, heq, ?_, ?_, ?_⟩
      · rw [heq] at hc
        simpa [pyTruthy] using hc
      · rw [Option.some_inj] at h; subst h; rfl
      · rw [Option.some_inj] at h; subst h; rfl
    all_goals cases h
  next hc =>
    left
    rw [Option.some_inj] at h
    subst h
    exact ⟨by simpa using hc, rfl, rfl⟩

theorem setsLoop_dates_wf : ∀ (es : List (List (String × JVal))) (a a₂ : SetsAnalysis),
    setsLoop a es = some a₂ →
    (∀ s, a.oldest = some s → s ≠ "") → (∀ s, a.newest = some s → s ≠ "") →
    (∀ s, a₂.oldest = some s → s ≠ "") ∧ (∀ s, a₂.newest = some s → s ≠ "") ∧
    (∀ s, a.oldest = some s → ∃ s₂, a₂.oldest = some s₂ ∧ s₂ ≤ s) ∧
    (∀ s, a.newest = some s → ∃ s₂, a₂.newest = some s₂ ∧ s ≤ s₂) := by
  intro es
  induction es with
  | nil =>
    intro a a₂ h ho hn
    rw [setsLoop, Option.some_inj] at h
    subst h
    exact ⟨ho, hn, fun s hs => ⟨s, hs, le_refl s⟩, fun s hs => ⟨s, hs, le_refl s⟩⟩
  | cons e es ih =>
    intro a a₂ h ho hn
    rw [setsLoop] at h
    cases hs : setsStep a e with
    | none => rw [hs] at h; cases h
    | some a₁ =>
      rw [hs] at h
      rcases setsStep_dates a e a₁ hs with ⟨_, h1o, h1n⟩ | ⟨d, _, hd, h1o, h1n⟩
      · have := ih a₁ a₂ h (h1o ▸ ho) (h1n ▸ hn)
        exact ⟨this.1, this.2.1,
          fun s hsome => this.2.2.1 s (h1o ▸ hsome),
          fun s hsome => this.2.2.2 s (h1n ▸ hsome)⟩
      · have ho₁ : ∀ s, a₁.oldest = some s → s ≠ "" := by
          intro s hsome
          exact updateOldest_ne_empty a.oldest d hd ho s (h1o ▸ hsome)
        have hn₁ : ∀ s, a₁.newest = some s → s ≠ "" := by
          intro s hsome
          exact updateNewest_ne_empty a.newest d hd hn s (h1n ▸ hsome)
        obtain ⟨hwo, hwn, hmo, hmn⟩ := ih a₁ a₂ h ho₁ hn₁
        refine ⟨hwo, hwn, ?_, ?_⟩
        · intro s hsome
          obtain ⟨o₁, ho₁eq, ho₁le⟩ := updateOldest_mono s d (ho s hsome)
          rw [hsome] at h1o
          obtain ⟨s₂, hs₂, hs₂le⟩ := hmo o₁ (h1o.trans ho₁eq)
          exact ⟨s₂, hs₂, le_trans hs₂le ho₁le⟩
        · intro s hsome
          obtain ⟨n₁, hn₁eq, hn₁le⟩ := updateNewest_mono s d (hn s hsome)
          rw [hsome] at h1n
          obtain ⟨s₂, hs₂, hs₂le⟩ := hmn n₁ (h1n.trans hn₁eq)
          exact ⟨s₂, hs₂, le_trans hn₁le hs₂le⟩

theorem setsLoop_dates_bound : ∀ (es : List (List (String × JVal))) (a a₂ : SetsAnalysis),
    setsLoop a es = some a₂ →
    (∀ s, a.oldest = some s → s ≠ "") → (∀ s, a.newest = some s → s ≠ "") →
    ∀ e ∈ es, ∀ d, pyGet e "released_at" = .str d → d ≠ "" →
      (∃ o, a₂.oldest = some o ∧ o ≤ d) ∧ (∃ n, a₂.newest = some n ∧ d ≤ n) := by
  intro es
  induction es with
  | nil =>
    intro a a₂ h ho hn e he
    cases he
  | cons e₀ es ih =>
    intro a a₂ h ho hn e he d hget hd
    rw [setsLoop] at h
    cases hs : setsStep a e₀ with
    | none => rw [hs] at h; cases h
    | some a₁ =>
      rw [hs] at h
      have hwf := setsStep_dates a e₀ a₁ hs
      have ho₁ : ∀ s, a₁.oldest = some s → s ≠ "" := by
        rcases hwf with ⟨_, h1o, _⟩ | ⟨d₀, _, hd₀, h1o, _⟩
        · exact h1o ▸ ho
        · intro s hsome
          exact updateOldest_ne_empty a.oldest d₀ hd₀ ho s (h1o ▸ hsome)
      have hn₁ : ∀ s, a₁.newest = some s → s ≠ "" := by
        rcases hwf with ⟨_, _, h1n⟩ | ⟨d₀, _, hd₀, _, h1n⟩
        · exact h1n ▸ hn
        · intro s hsome
          exact updateNewest_ne_empty a.newest d₀ hd₀ hn s (h1n ▸ hsome)
      rcases List.mem_cons.mp he with he₀ | hemem
      · subst he₀
        rcases hwf with ⟨hfalsy, _, _⟩ | ⟨d₀, hget₀, _, h1o, h1n⟩
        · rw [hget] at hfalsy
          simp [pyTruthy, hd] at hfalsy
        · rw [hget, JVal.str.injEq] at hget₀
          subst hget₀
          obtain ⟨_, _, hmo, hmn⟩ := setsLoop_dates_wf es a₁ a₂ h ho₁ hn₁
          constructor
          · obtain ⟨o₁, ho₁eq, ho₁le⟩ := updateOldest_some_le a.oldest d
            obtain ⟨o, hoeq, hole⟩ := hmo o₁ (h1o.trans ho₁eq)
            exact ⟨o, hoeq, le_trans hole ho₁le⟩
          · obtain ⟨n₁, hn₁eq, hn₁le⟩ := updateNewest_some_ge a.newest d
            obtain ⟨n, hneq, hnle⟩ := hmn n₁ (h1n.trans hn₁eq)
            exact ⟨n, hneq, le_trans hn₁le hnle⟩
      · exact ih a₁ a₂ h ho₁ hn₁ e hemem d hget hd

theorem jval_ind (P : JVal → Prop)
    (h0 : P .null) (h1 : ∀ b, P (.bool b)) (h2 : ∀ n, P (.int n)) (h3 : ∀ s, P (.str s))
    (h4 : ∀ xs, (∀ x ∈ xs, P x) → P (.arr xs))
    (h5 : ∀ kvs, (∀ kv ∈ kvs, P kv.2) → P (.obj kvs)) : ∀ v, P v
  | .null => h0
  | .bool b => h1 b
  | .int n => h2 n
  | .str s => h3 s
  | .arr xs => h4 xs (fun x hx =>
      have : sizeOf x < 1 + sizeOf xs := by
        have := List.sizeOf_lt_of_mem hx
        omega
      jval_ind P h0 h1 h2 h3 h4 h5 x)
  | .obj kvs => h5 kvs (fun kv hkv =>
      have : sizeOf kv.2 < 1 + sizeOf kvs := by
        have ha := List.sizeOf_lt_of_mem hkv
        have hb : sizeOf kv.2 < sizeOf kv := by
          obtain ⟨a, b⟩ := kv
          simp only [Prod.mk.sizeOf_spec]
          omega
        omega
      jval_ind P h0 h1 h2 h3 h4 h5 kv.2)
termination_by v => sizeOf v

theorem jeqList_sound (xs : List JVal)
    (hx : ∀ x ∈ xs, ∀ b, jeq x b = true → x = b) :
    ∀ ys, jeqList xs ys = true → xs = ys := by
  induction xs with
  | nil =>
    intro ys h
    cases ys with
    | nil => rfl
    | cons y ys => exact absurd h Bool.false_ne_true
  | cons x xs ih =>
    intro ys h
    cases ys with
    | nil => exact absurd h Bool.false_ne_true
    | cons y ys =>
      rw [jeqList, Bool.and_eq_true] at h
      have hxy := hx x (List.mem_cons_self _ _) y h.1
      have hxs := ih (fun z hz => hx z (List.mem_cons_of_mem _ hz)) ys h.2
      rw [hxy, hxs]

theorem jeqObj_sound (xs : List (String × JVal))
    (hx : ∀ kv ∈ xs, ∀ b, jeq kv.2 b = true → kv.2 = b) :
    ∀ ys, jeqObj xs ys = true → xs = ys := by
  induction xs with
  | nil =>
    intro ys h
    cases ys with
    | nil => rfl
    | cons y ys => exact absurd h Bool.false_ne_true
  | cons x xs ih =>
    intro ys h
    cases ys with
    | nil =>
      obtain ⟨k, v⟩ := x
      exact absurd h Bool.false_ne_true
    | cons y ys =>
      obtain ⟨k, v⟩ := x
      obtain ⟨l, w⟩ := y
      rw [jeqObj, Bool.and_eq_true, Bool.and_eq_true] at h
      have hk : k = l := by simpa using h.1.1
      have hv : v = w := hx (k, v) (List.mem_cons_self _ _) w h.1.2
      have hxs := ih (fun z hz => hx z (List.mem_cons_of_mem _ hz)) ys h.2
      rw [hk, hv, hxs]

theorem jeq_sound : ∀ a b : JVal, jeq a b = true → a = b := by
  intro a
  induction a using jval_ind with
  | h0 =>
    intro b h
    cases b <;> first | rfl | exact absurd h Bool.false_ne_true
  | h1 x =>
    intro b h
    cases b <;> first
      | exact congrArg JVal.bool (eq_of_beq h)
      | exact absurd h Bool.false_ne_true
  | h2 x =>
    intro b h
    cases b <;> first
      | exact congrArg JVal.int (eq_of_beq h)
      | exact absurd h Bool.false_ne_true
  | h3 x =>
    intro b h
    cases b <;> first
      | exact congrArg JVal.str (eq_of_beq h)
      | exact absurd h Bool.false_ne_true
  | h4 xs ih =>
    intro b h
    cases b <;> first
      | exact congrArg JVal.arr (jeqList_sound xs ih _ h)
      | exact absurd h Bool.false_ne_true
  | h5 kvs ih =>
    intro b h
    cases b <;> first
      | exact congrArg JVal.obj (jeqObj_sound kvs ih _ h)
      | exact absurd h Bool.false_ne_true

theorem mem_setAdd (s : List JVal) (v x : JVal) (h : x ∈ setAdd s v) : x ∈ s ∨ x = v := by
  unfold setAdd at h
  split at h
  · exact Or.inl h
  · rcases List.mem_append.mp h with h | h
    · exact Or.inl h
    · exact Or.inr (List.mem_singleton.mp h)

theorem mem_setAdd_of_mem (s : List JVal) (v x : JVal) (h : x ∈ s) : x ∈ setAdd s v := by
  unfold setAdd
  split
  · exact h
  · exact List.mem_append_left _ h

theorem mem_setAdd_self (s : List JVal) (v : JVal) : v ∈ setAdd s v := by
  unfold setAdd
  split
  · next h =>
    obtain ⟨w, hw, hjeq⟩ := List.any_eq_true.mp h
    have := jeq_sound w v hjeq
    exact this ▸ hw
  · exact List.mem_append_right _ (List.mem_singleton.mpr rfl)

theorem mem_setAdd_iff (s : List JVal) (v x : JVal) : x ∈ setAdd s v ↔ x ∈ s ∨ x = v := by
  constructor
  · exact mem_setAdd s v x
  · intro h
    rcases h with h | h
    · exact mem_setAdd_of_mem s v x h
    · exact h ▸ mem_setAdd_self s v

theorem mem_setUpdate_iff : ∀ (xs s : List JVal) (x : JVal),
    x ∈ setUpdate s xs ↔ x ∈ s ∨ x ∈ xs := by
  intro xs
  induction xs with
  | nil =>
    intro s x
    simp [setUpdate]
  | cons y ys ih =>
    intro s x
    have : setUpdate s (y :: ys) = setUpdate (setAdd s y) ys := rfl
    rw [this, ih, mem_setAdd_iff]
    simp only [List.mem_cons]
    tauto

theorem setsLoop_set_types : ∀ (es : List (List (String × JVal))) (a a₂ : SetsAnalysis),
    setsLoop a es = some a₂ →
    ∀ t ∈ a₂.set_types, t ∈ a.set_types ∨ ∃ e ∈ es, t = pyGet e "set_type" := by
  intro es
  induction es with
  | nil =>
    intro a a₂ h t ht
    rw [setsLoop, Option.some_inj] at h
    subst h
    exact Or.inl ht
  | cons e es ih =>
    intro a a₂ h t ht
    rw [setsLoop] at h
    cases hs : setsStep a e with
    | none => rw [hs] at h; cases h
    | some a₁ =>
      rw [hs] at h
      obtain ⟨_, _, _, hst⟩ := setsStep_some a e a₁ hs
      rcases ih a₁ a₂ h t ht with h₁ | ⟨e₂, he₂, ht₂⟩
      · rw [hst] at h₁
        rcases mem_setAdd _ _ _ h₁ with h₂ | h₂
        · exact Or.inl h₂
        · exact Or.inr ⟨e, List.mem_cons_self _ _, h₂⟩
      · exact Or.inr ⟨e₂, List.mem_cons_of_mem _ he₂, ht₂⟩

theorem addRarity_card_types (a : CardsAnalysis) (c : List (String × JVal)) :
    (addRarity a c).card_types = a.card_types ∧ (addRarity a c).colors = a.colors := by
  unfold addRarity
  split <;> exact ⟨rfl, rfl⟩

theorem addLang_card_types (a : CardsAnalysis) (c : List (String × JVal)) :
    (addLang a c).card_types = a.card_types ∧ (addLang a c).colors = a.colors := by
  unfold addLang
  split <;> exact ⟨rfl, rfl⟩

theorem addTypes_some (a : CardsAnalysis) (c : List (String × JVal)) (a₂ : CardsAnalysis)
    (h : addTypes a c = some a₂) :
    a₂.colors = a.colors ∧ a₂.sample_cards = a.sample_cards ∧
    ((pyTruthy (pyGet c "type_line") = false ∧ a₂.card_types = a.card_types) ∨
     (∃ tl, pyGet c "type_line" = JVal.str tl ∧ pyTruthy (JVal.str tl) = true ∧
       a₂.card_types = setAdd a.card_types (.str (typeBucket tl)))) := by
  unfold addTypes at h
  split at h
  next hc =>
    split at h
    next tl heq =>
      rw [Option.some_inj] at h
      subst h
      exact ⟨rfl, rfl, Or.inr ⟨tl, heq, heq ▸ hc, rfl⟩⟩
    all_goals cases h
  next hc =>
    rw [Option.some_inj] at h
    subst h
    exact ⟨rfl, rfl, Or.inl ⟨by simpa using hc, rfl⟩⟩

theorem addColors_some (a : CardsAnalysis) (c : List (String × JVal)) (a₂ : CardsAnalysis)
    (h : addColors a c = some a₂) :
    a₂.card_types = a.card_types ∧ a₂.sample_cards = a.sample_cards ∧
    ((pyTruthy (pyGet c "colors") = false ∧ a₂.colors = a.colors) ∨
     (∃ xs, pyGet c "colors" = JVal.arr xs ∧ pyTruthy (JVal.arr xs) = true ∧
       a₂.colors = setUpdate a.colors xs)) := by
  unfold addColors at h
  split at h
  next hc =>
    split at h
    next xs heq =>
      rw [Option.some_inj] at h
      subst h
      exact ⟨rfl, rfl, Or.inr ⟨xs, heq, heq ▸ hc, rfl⟩⟩
    all_goals cases h
  next hc =>
    rw [Option.some_inj] at h
    subst h
    exact ⟨rfl, rfl, Or.inl ⟨by simpa using hc, rfl⟩⟩

theorem cardsStep_card_types (a : CardsAnalysis) (c : List (String × JVal))
    (a₂ : CardsAnalysis) (h : cardsStep a c = some a₂) :
    ∀ t ∈ a₂.card_types, t ∈ a.card_types ∨
      ∃ tl, pyGet c "type_line" = JVal.str tl ∧ pyTruthy (JVal.str tl) = true ∧
        t = JVal.str (typeBucket tl) := by
  intro t ht
  unfold cardsStep at h
  cases h1 : addTypes { a with sample_cards := a.sample_cards ++ [mkCardInfo c] } c with
  | none => rw [h1] at h; cases h
  | some a₁ =>
    rw [h1] at h
    dsimp only [] at h
    cases h2 : addColors (addRarity a₁ c) c with
    | none => rw [h2] at h; cases h
    | some a₃ =>
      rw [h2, Option.some_inj] at h
      subst h
      rw [(addLang_card_types a₃ c).1] at ht
      have hct3 := (addColors_some _ c a₃ h2).1
      rw [hct3, (addRarity_card_types a₁ c).1] at ht
      obtain ⟨_, _, htypes⟩ := addTypes_some _ c a₁ h1
      rcases htypes with ⟨_, hsame⟩ | ⟨tl, heq, htr, hadd⟩
      · exact Or.inl (hsame ▸ ht)
      · rw [hadd] at ht
        rcases mem_setAdd _ _ _ ht with h₃ | h₃
        · exact Or.inl h₃
        · exact Or.inr ⟨tl, heq, htr, h₃⟩

theorem cardsStep_colors (a : CardsAnalysis) (c : List (String × JVal))
    (a₂ : CardsAnalysis) (h : cardsStep a c = some a₂) :
    ∀ x, x ∈ a₂.colors ↔ x ∈ a.colors ∨ ∃ xs, pyGet c "colors" = JVal.arr xs ∧ x ∈ xs := by
  intro x
  unfold cardsStep at h
  cases h1 : addTypes { a with sample_cards := a.sample_cards ++ [mkCardInfo c] } c with
  | none => rw [h1] at h; cases h
  | some a₁ =>
    rw [h1] at h
    dsimp only [] at h
    cases h2 : addColors (addRarity a₁ c) c with
    | none => rw [h2] at h; cases h
    | some a₃ =>
      rw [h2, Option.some_inj] at h
      subst h
      rw [(addLang_card_types a₃ c).2]
      have hc1 := (addTypes_some _ c a₁ h1).1
      have hr1 := (addRarity_card_types a₁ c).2
      obtain ⟨_, _, hcolors⟩ := addColors_some _ c a₃ h2
      rcases hcolors with ⟨hfalsy, hsame⟩ | ⟨xs, heq, _, hupd⟩
      · rw [hsame, hr1, hc1]
        constructor
        · exact Or.inl
        · intro hx
          rcases hx with hx | ⟨xs, heq, hxmem⟩
          · exact hx
          · rw [heq] at hfalsy
            have : xs = [] := by simpa [pyTruthy, List.isEmpty_iff] using hfalsy
            subst this
            cases hxmem
      · rw [hupd, mem_setUpdate_iff, hr1, hc1]
        constructor
        · intro hx
          rcases hx with hx | hx
          · exact Or.inl hx
          · exact Or.inr ⟨xs, heq, hx⟩
        · intro hx
          rcases hx with hx | ⟨ys, heq₂, hy⟩
          · exact Or.inl hx
          · rw [heq] at heq₂
            rw [JVal.arr.injEq] at heq₂
            exact Or.inr (heq₂ ▸ hy)

theorem cardsLoop_card_types : ∀ (cs : List (List (String × JVal))) (a a₂ : CardsAnalysis),
    cardsLoop a cs = some a₂ →
    ∀ t ∈ a₂.card_types, t ∈ a.card_types ∨
      ∃ c ∈ cs, ∃ tl, pyGet c "type_line" = JVal.str tl ∧ pyTruthy (JVal.str tl) = true ∧
        t = JVal.str (typeBucket tl) := by
  intro cs
  induction cs with
  | nil =>
    intro a a₂ h t ht
    rw [cardsLoop, Option.some_inj] at h
    subst h
    exact Or.inl ht
  | cons c cs ih =>
    intro a a₂ h t ht
    rw [cardsLoop] at h
    cases hs : cardsStep a c with
    | none => rw [hs] at h; cases h
    | some a₁ =>
      rw [hs] at h
      rcases ih a₁ a₂ h t ht with h₁ | ⟨c₂, hc₂, rest⟩
      · rcases cardsStep_card_types a c a₁ hs t h₁ with h₂ | ⟨tl, heq, htr, hb⟩
        · exact Or.inl h₂
        · exact Or.inr ⟨c, List.mem_cons_self _ _, tl, heq, htr, hb⟩
      · exact Or.inr ⟨c₂, List.mem_cons_of_mem _ hc₂, rest⟩

theorem cardsLoop_colors : ∀ (cs : List (List (String × JVal))) (a a₂ : CardsAnalysis),
    cardsLoop a cs = some a₂ →
    ∀ x, x ∈ a₂.colors ↔
      x ∈ a.colors ∨ ∃ c ∈ cs, ∃ xs, pyGet c "colors" = JVal.arr xs ∧ x ∈ xs := by
  intro cs
  induction cs with
  | nil =>
    intro a a₂ h x
    rw [cardsLoop, Option.some_inj] at h
    subst h
    simp
  | cons c cs ih =>
    intro a a₂ h x
    rw [cardsLoop] at h
    cases hs : cardsStep a c with
    | none => rw [hs] at h; cases h
    | some a₁ =>
      rw [hs] at h
      rw [ih a₁ a₂ h x, cardsStep_colors a c a₁ hs x]
      simp only [List.mem_cons]
      constructor
      · intro hx
        rcases hx with (hx | ⟨xs, heq, hm⟩) | ⟨c₂, hc₂, w⟩
        · exact Or.inl hx
        · exact Or.inr ⟨c, Or.inl rfl, xs, heq, hm⟩
        · exact Or.inr ⟨c₂, Or.inr hc₂, w⟩
      · intro hx
        rcases hx with hx | ⟨c₂, (hc₂ | hc₂), w⟩
        · exact Or.inl (Or.inl hx)
        · exact Or.inl (Or.inr (hc₂ ▸ w))
        · exact Or.inr ⟨c₂, hc₂, w⟩

theorem explore_cards_summary (sc : String) (kvs : List (String × JVal))
    (entries : List JVal) (sampled : List (List (String × JVal))) (limit : Int)
    (a : CardsAnalysis)
    (h1 : dataEntries kvs = some entries)
    (h2 : allObjs (pySliceTo entries limit) = some sampled)
    (h3 : explore_cards sc (some (.obj kvs)) limit = .summary a) :
    cardsLoop (cardsInit kvs) sampled = some a := by
  cases ht : pyTruthy (JVal.obj kvs) with
  | false =>
    simp only [explore_cards, ht, Bool.false_eq_true, if_false] at h3
    cases h3
  | true =>
    simp only [explore_cards, ht, if_true, h1, h2] at h3
    cases hl : cardsLoop (cardsInit kvs) sampled with
    | none => rw [hl] at h3; cases h3
    | some a₁ =>
      rw [hl] at h3
      cases h3
      rfl

theorem mem_stripChars (cs : List Char) (x : Char) (h : x ∈ stripChars cs) : x ∈ cs := by
  unfold stripChars at h
  rw [List.mem_reverse] at h
  have h₂ := (List.dropWhile_sublist _).mem h
  rw [List.mem_reverse] at h₂
  exact (List.dropWhile_sublist _).mem h₂

theorem hyphen_not_mem_typeBucket (s : String) : '-' ∉ (typeBucket s).data := by
  intro h
  unfold typeBucket at h
  have h₂ := mem_stripChars _ _ h
  have h₃ := List.mem_takeWhile_imp h₂
  simp at h₃

/-! ### Decoder-encoder inversion: whitespace, characters and digits -/

theorem skipWs_cons_not_ws (c : Char) (l : List Char) (h : isWsCh c = false) :
    skipWs (c :: l) = c :: l := by
  simp [skipWs, List.dropWhile_cons, h]

theorem skipWs_space (l : List Char) : skipWs (' ' :: l) = skipWs l := by
  rw [skipWs, skipWs, List.dropWhile_cons, if_pos (by decide : isWsCh ' ' = true)]

theorem skipWs_newline (l : List Char) : skipWs ('\n' :: l) = skipWs l := by
  rw [skipWs, skipWs, List.dropWhile_cons, if_pos (by decide : isWsCh '\n' = true)]

theorem skipWs_pad (n : Nat) (l : List Char) : skipWs (pad n ++ l) = skipWs l := by
  induction n with
  | zero => rfl
  | succ m ih =>
    rw [pad, List.replicate_succ, List.cons_append]
    rw [show List.replicate m ' ' = pad m from rfl]
    rw [skipWs_space, ih]

theorem skipWs_idem (l : List Char) : skipWs (skipWs l) = skipWs l := by
  induction l with
  | nil => rfl
  | cons c l ih =>
    by_cases h : isWsCh c = true
    · have hcons : skipWs (c :: l) = skipWs l := by
        rw [skipWs, skipWs, List.dropWhile_cons, if_pos h]
      rw [hcons]
      exact ih
    · rw [Bool.not_eq_true] at h
      rw [skipWs_cons_not_ws c l h, skipWs_cons_not_ws c l h]

theorem digit_facts (c : Char) (h : isDigitCh c = true) :
    isWsCh c = false ∧ c ≠ 'n' ∧ c ≠ 't' ∧ c ≠ 'f' ∧ c ≠ '"' ∧ c ≠ '[' ∧
    c ≠ '\x7b' ∧ c ≠ '-' ∧ c ≠ ']' ∧ c ≠ '\x7d' := by
  simp only [isDigitCh, Bool.and_eq_true, decide_eq_true_eq] at h
  refine ⟨?_, ?_, ?_, ?_, ?_, ?_, ?_, ?_, ?_, ?_⟩
  · by_contra hw
    rw [Bool.not_eq_false] at hw
    simp only [isWsCh, Bool.or_eq_true, decide_eq_true_eq] at hw
    rcases hw with ((h1 | h1) | h1) | h1 <;> subst h1 <;> revert h <;> decide
  all_goals (intro heq; subst heq; revert h; decide)

theorem numSafe_cons (c : Char) (l : List Char) (h : isDigitCh c = false) :
    numSafe (c :: l) := h

theorem takeWhile_all_append (p : Char → Bool) :
    ∀ (l r : List Char), (∀ c ∈ l, p c = true) →
    (l ++ r).takeWhile p = l ++ r.takeWhile p := by
  intro l
  induction l with
  | nil => intro r _; rfl
  | cons c l ih =>
    intro r hall
    rw [List.cons_append, List.takeWhile_cons, if_pos (hall c (List.mem_cons_self _ _)),
      ih r (fun d hd => hall d (List.mem_cons_of_mem _ hd)), List.cons_append]

theorem dropWhile_all_append (p : Char → Bool) :
    ∀ (l r : List Char), (∀ c ∈ l, p c = true) →
    (l ++ r).dropWhile p = r.dropWhile p := by
  intro l
  induction l with
  | nil => intro r _; rfl
  | cons c l ih =>
    intro r hall
    rw [List.cons_append, List.dropWhile_cons, if_pos (hall c (List.mem_cons_self _ _)),
      ih r (fun d hd => hall d (List.mem_cons_of_mem _ hd))]

theorem takeWhile_numSafe (r : List Char) (h : numSafe r) :
    r.takeWhile isDigitCh = [] := by
  cases r with
  | nil => rfl
  | cons c l =>
    rw [List.takeWhile_cons, if_neg]
    rw [show numSafe (c :: l) = (isDigitCh c = false) from rfl] at h
    rw [h]
    exact Bool.false_ne_true

theorem dropWhile_numSafe (r : List Char) (h : numSafe r) :
    r.dropWhile isDigitCh = r := by
  cases r with
  | nil => rfl
  | cons c l =>
    rw [List.dropWhile_cons, if_neg]
    rw [show numSafe (c :: l) = (isDigitCh c = false) from rfl] at h
    rw [h]
    exact Bool.false_ne_true

theorem toNat_ofNat_valid (n : Nat) (h : n.isValidChar) : (Char.ofNat n).toNat = n := by
  unfold Char.ofNat
  rw [dif_pos h]
  show (⟨⟨BitVec.ofNatLt n _⟩, h⟩ : Char).toNat = n
  unfold Char.toNat
  simp [UInt32.toNat, BitVec.toNat_ofNatLt]

theorem natChars_all_digits (m : Nat) : ∀ c ∈ natChars m, isDigitCh c = true := by
  intro c hc
  unfold natChars at hc
  split at hc
  · rw [List.mem_singleton] at hc
    subst hc
    decide
  · rw [List.mem_reverse, List.mem_map] at hc
    obtain ⟨d, hd, hdc⟩ := hc
    have hlt : d < 10 := Nat.digits_lt_base (by decide) hd
    subst hdc
    interval_cases d <;> decide

theorem natChars_ne_nil (m : Nat) : natChars m ≠ [] := by
  unfold natChars
  split
  · exact List.cons_ne_nil _ _
  · next h =>
    simp only [ne_eq, List.reverse_eq_nil_iff, List.map_eq_nil_iff]
    exact Nat.digits_ne_nil_iff_ne_zero.mpr h

theorem digitsVal_append_digit (l : List Char) (c : Char) :
    digitsVal (l ++ [c]) = 10 * digitsVal l + (c.toNat - 48) := by
  unfold digitsVal
  rw [List.foldl_append]
  simp [Nat.mul_comm]

theorem digitsVal_natChars : ∀ m : Nat, digitsVal (natChars m) = m := by
  intro m
  induction m using Nat.strong_induction_on with
  | _ m ih =>
    by_cases h0 : m = 0
    · subst h0; decide
    · by_cases hsmall : m < 10
      · have h1 : natChars m = [Char.ofNat (48 + m)] := by
          unfold natChars
          rw [if_neg h0,
            Nat.digits_def' (by decide : (1:Nat) < 10) (Nat.pos_of_ne_zero h0),
            Nat.mod_eq_of_lt hsmall, Nat.div_eq_of_lt hsmall, Nat.digits_zero]
          simp
        rw [h1]
        have hm1 : 1 ≤ m := Nat.pos_of_ne_zero h0
        interval_cases m <;> decide
      · have hpos : 0 < m := Nat.pos_of_ne_zero h0
        have hstep : natChars m = natChars (m / 10) ++ [Char.ofNat (48 + m % 10)] := by
          unfold natChars
          rw [if_neg h0, Nat.digits_def' (by decide : (1:Nat) < 10) hpos]
          have hd0 : m / 10 ≠ 0 := by omega
          rw [if_neg hd0]
          simp
        rw [hstep, digitsVal_append_digit,
          ih (m / 10) (Nat.div_lt_self hpos (by decide))]
        have hc : (Char.ofNat (48 + m % 10)).toNat = 48 + m % 10 :=
          toNat_ofNat_valid _ (Or.inl (by omega))
        rw [hc]
        omega

theorem parseNum_natChars (m : Nat) (rest : List Char) (hsafe : numSafe rest) :
    parseNum (natChars m ++ rest) = some (.int (m : Int), rest) := by
  have htake : (natChars m ++ rest).takeWhile isDigitCh = natChars m := by
    rw [takeWhile_all_append _ _ _ (natChars_all_digits m), takeWhile_numSafe rest hsafe,
      List.append_nil]
  have hdrop : (natChars m ++ rest).dropWhile isDigitCh = rest := by
    rw [dropWhile_all_append _ _ _ (natChars_all_digits m), dropWhile_numSafe rest hsafe]
  obtain ⟨c, cs, hcons⟩ : ∃ c cs, natChars m = c :: cs := by
    cases hx : natChars m with
    | nil => exact absurd hx (natChars_ne_nil m)
    | cons c cs => exact ⟨c, cs, rfl⟩
  have hdig : isDigitCh c = true :=
    natChars_all_digits m c (by rw [hcons]; exact List.mem_cons_self _ _)
  have hne : ¬ c = '-' := (digit_facts c hdig).2.2.2.2.2.2.2.1
  have hcc : natChars m ++ rest = c :: (cs ++ rest) := by
    rw [hcons, List.cons_append]
  have htake2 : (c :: (cs ++ rest)).takeWhile isDigitCh = c :: cs := by
    rw [← hcc, htake, hcons]
  have hdrop2 : (c :: (cs ++ rest)).dropWhile isDigitCh = rest := by
    rw [← hcc, hdrop]
  rw [hcc, parseNum, if_neg hne, htake2, hdrop2,
    if_neg (by simp : ¬ ((c :: cs).isEmpty = true)), ← hcons, digitsVal_natChars]

theorem parseNum_intChars (n : Int) (rest : List Char) (hsafe : numSafe rest) :
    parseNum (intChars n ++ rest) = some (.int n, rest) := by
  unfold intChars
  by_cases hn : n < 0
  · rw [if_pos hn, List.cons_append, parseNum, if_pos rfl]
    have htake : ((natChars (-n).toNat ++ rest).takeWhile isDigitCh)
        = natChars (-n).toNat := by
      rw [takeWhile_all_append _ _ _ (natChars_all_digits _), takeWhile_numSafe rest hsafe,
        List.append_nil]
    have hdrop : ((natChars (-n).toNat ++ rest).dropWhile isDigitCh) = rest := by
      rw [dropWhile_all_append _ _ _ (natChars_all_digits _), dropWhile_numSafe rest hsafe]
    rw [htake, hdrop,
      if_neg (fun hx => natChars_ne_nil _ (List.isEmpty_iff.mp hx)),
      digitsVal_natChars]
    have hcast : (((-n).toNat : Int)) = -n := Int.toNat_of_nonneg (by omega)
    rw [hcast]
    simp
  · rw [if_neg hn, parseNum_natChars n.toNat rest hsafe,
      Int.toNat_of_nonneg (by omega)]

/-! ### Decoder-encoder inversion: strings -/

theorem hexVal_hexChar (n : Nat) (h : n < 16) : hexVal (hexChar n) = some n := by
  interval_cases n <;> decide

theorem decodeHex4_ctrl (c : Char) (h : c.toNat < 32) :
    decodeHex4 '0' '0' (hexChar (c.toNat / 16)) (hexChar (c.toNat % 16)) = some c := by
  have h1 : c.toNat / 16 < 16 := by omega
  have h2 : c.toNat % 16 < 16 := Nat.mod_lt _ (by decide)
  unfold decodeHex4
  rw [show hexVal '0' = some 0 from rfl, hexVal_hexChar _ h1, hexVal_hexChar _ h2]
  have hn : ((0 * 16 + 0) * 16 + c.toNat / 16) * 16 + c.toNat % 16 = c.toNat := by omega
  simp only [hn]
  rw [if_pos (Or.inl (by omega) : c.toNat.isValidChar), Char.ofNat_toNat]

theorem parseStringBody_escChar (c : Char) (r : List Char) :
    parseStringBody (escChar c ++ r)
      = (parseStringBody r).map (fun p => (c :: p.1, p.2)) := by
  unfold escChar
  by_cases h1 : c = '"'
  · subst h1
    rw [if_pos rfl]
    cases hp : parseStringBody r <;> simp [parseStringBody, decodeEsc, hp]
  rw [if_neg h1]
  by_cases h2 : c = '\\'
  · subst h2
    rw [if_pos rfl]
    cases hp : parseStringBody r <;> simp [parseStringBody, decodeEsc, hp]
  rw [if_neg h2]
  by_cases h3 : c = '\n'
  · subst h3
    rw [if_pos rfl]
    cases hp : parseStringBody r <;> simp [parseStringBody, decodeEsc, hp]
  rw [if_neg h3]
  by_cases h4 : c = '\r'
  · subst h4
    rw [if_pos rfl]
    cases hp : parseStringBody r <;> simp [parseStringBody, decodeEsc, hp]
  rw [if_neg h4]
  by_cases h5 : c = '\t'
  · subst h5
    rw [if_pos rfl]
    cases hp : parseStringBody r <;> simp [parseStringBody, decodeEsc, hp]
  rw [if_neg h5]
  by_cases h6 : c = '\x08'
  · subst h6
    rw [if_pos rfl]
    cases hp : parseStringBody r <;> simp [parseStringBody, decodeEsc, hp]
  rw [if_neg h6]
  by_cases h7 : c = '\x0c'
  · subst h7
    rw [if_pos rfl]
    cases hp : parseStringBody r <;> simp [parseStringBody, decodeEsc, hp]
  rw [if_neg h7]
  by_cases h8 : c.toNat < 32
  · rw [if_pos h8]
    have hdec := decodeHex4_ctrl c h8
    cases hp : parseStringBody r <;>
      simp [parseStringBody, hdec, hp]
  · rw [if_neg h8]
    cases hp : parseStringBody r with
    | none =>
      rw [List.singleton_append, parseStringBody.eq_def]
      dsimp only []
      rw [if_neg h1, if_neg h2, hp]
      rfl
    | some p =>
      obtain ⟨b, rs⟩ := p
      rw [List.singleton_append, parseStringBody.eq_def]
      dsimp only []
      rw [if_neg h1, if_neg h2, hp]
      rfl

theorem parseStringBody_escChars : ∀ (cs : List Char) (rest : List Char),
    parseStringBody (escChars cs ++ '"' :: rest) = some (cs, rest) := by
  intro cs
  induction cs with
  | nil =>
    intro rest
    have h : escChars [] ++ '"' :: rest = '"' :: rest := by simp [escChars]
    rw [h, parseStringBody.eq_def]
    dsimp only []
    rw [if_pos rfl]
  | cons c cs ih =>
    intro rest
    have hesc : escChars (c :: cs) = escChar c ++ escChars cs := by
      simp [escChars]
    rw [hesc, List.append_assoc, parseStringBody_escChar, ih]
    rfl

/-! ### Decoder-encoder inversion: structure -/

theorem parseVal_skipWs (fuel : Nat) (input : List Char) :
    parseVal fuel (skipWs input) = parseVal fuel input := by
  cases fuel with
  | zero => rfl
  | succ f =>
    simp only [parseVal]
    rw [skipWs_idem]

theorem parseItems_skipWs (fuel : Nat) (input : List Char) :
    parseItems fuel (skipWs input) = parseItems fuel input := by
  cases fuel with
  | zero => rfl
  | succ f =>
    simp only [parseItems]
    rw [parseVal_skipWs]

theorem parseFields_skipWs (fuel : Nat) (input : List Char) :
    parseFields fuel (skipWs input) = parseFields fuel input := by
  cases fuel with
  | zero => rfl
  | succ f =>
    simp only [parseFields]
    rw [skipWs_idem]

theorem jsize_pos : ∀ v : JVal, 1 ≤ jsize v := by
  intro v
  cases v <;> simp only [jsize] <;> omega

theorem jwfList_mem : ∀ (xs : List JVal), jwfList xs = true → ∀ x ∈ xs, jwf x = true := by
  intro xs
  induction xs with
  | nil =>
    intro _ x hx
    cases hx
  | cons y ys ih =>
    intro h x hx
    rw [jwfList, Bool.and_eq_true] at h
    rcases List.mem_cons.mp hx with h1 | h1
    · subst h1
      exact h.1
    · exact ih h.2 x h1

theorem jwfObj_mem : ∀ (kvs : List (String × JVal)), jwfObj kvs = true →
    ∀ kv ∈ kvs, jwf kv.2 = true := by
  intro kvs
  induction kvs with
  | nil =>
    intro _ kv hkv
    cases hkv
  | cons w ws ih =>
    intro h kv hkv
    rw [jwfObj, Bool.and_eq_true] at h
    rcases List.mem_cons.mp hkv with h1 | h1
    · subst h1
      exact h.1
    · exact ih h.2 kv h1

theorem distinctKeys_nodup : ∀ ks : List String, distinctKeys ks = true → ks.Nodup := by
  intro ks
  induction ks with
  | nil => intro _; exact List.nodup_nil
  | cons k ks ih =>
    intro h
    rw [distinctKeys, Bool.and_eq_true] at h
    refine List.nodup_cons.mpr ⟨?_, ih h.2⟩
    intro hmem
    have := List.elem_eq_true_of_mem hmem
    rw [show (ks.contains k) = (ks.elem k) from rfl] at h
    rw [this] at h
    exact absurd h.1 (by decide)

theorem insertKV_not_mem (acc : List (String × JVal)) (k : String) (v : JVal)
    (h : k ∉ acc.map Prod.fst) : insertKV acc k v = acc ++ [(k, v)] := by
  unfold insertKV
  rw [if_neg]
  intro hc
  rw [List.any_eq_true] at hc
  obtain ⟨kv, hmem, hkv⟩ := hc
  apply h
  rw [← show kv.1 = k from by simpa using hkv]
  exact List.mem_map_of_mem _ hmem

theorem dictify_go : ∀ (kvs acc : List (String × JVal)),
    ((acc ++ kvs).map Prod.fst).Nodup →
    kvs.foldl (fun acc kv => insertKV acc kv.1 kv.2) acc = acc ++ kvs := by
  intro kvs
  induction kvs with
  | nil =>
    intro acc _
    simp
  | cons kv kvs ih =>
    intro acc hnd
    rw [List.foldl_cons]
    have hk : kv.1 ∉ acc.map Prod.fst := by
      rw [List.map_append, List.map_cons] at hnd
      intro hmem
      exact List.disjoint_of_nodup_append hnd hmem (List.mem_cons_self _ _)
    rw [insertKV_not_mem _ _ _ hk]
    have hnd₂ : (((acc ++ [kv]) ++ kvs).map Prod.fst).Nodup := by
      rw [List.append_assoc]
      simpa using hnd
    rw [ih (acc ++ [kv]) hnd₂, List.append_assoc]
    simp

theorem dictify_nodup (kvs : List (String × JVal)) (h : (kvs.map Prod.fst).Nodup) :
    dictify kvs = kvs := by
  unfold dictify
  have := dictify_go kvs [] (by simpa using h)
  simpa using this

theorem jdumpVal_head (lvl : Nat) (v : JVal) :
    ∃ c cs, jdumpVal lvl v = c :: cs ∧ isWsCh c = false ∧ c ≠ ']' ∧ c ≠ '\x7d' := by
  cases v with
  | null => exact ⟨'n', _, rfl, by decide, by decide, by decide⟩
  | bool b =>
    cases b
    · exact ⟨'f', _, rfl, by decide, by decide, by decide⟩
    · exact ⟨'t', _, rfl, by decide, by decide, by decide⟩
  | int n =>
    by_cases hn : n < 0
    · refine ⟨'-', natChars (-n).toNat, ?_, by decide, by decide, by decide⟩
      simp only [jdumpVal, intChars, if_pos hn]
    · obtain ⟨c, cs, hcons⟩ : ∃ c cs, natChars n.toNat = c :: cs := by
        cases hx : natChars n.toNat with
        | nil => exact absurd hx (natChars_ne_nil _)
        | cons c cs => exact ⟨c, cs, rfl⟩
      have hdig : isDigitCh c = true :=
        natChars_all_digits _ c (by rw [hcons]; exact List.mem_cons_self _ _)
      have hf := digit_facts c hdig
      refine ⟨c, cs, ?_, hf.1, hf.2.2.2.2.2.2.2.2.1, hf.2.2.2.2.2.2.2.2.2⟩
      simp only [jdumpVal, intChars, if_neg hn]
      exact hcons
  | str s => exact ⟨'"', _, rfl, by decide, by decide, by decide⟩
  | arr xs =>
    cases xs
    · exact ⟨'[', _, rfl, by decide, by decide, by decide⟩
    · exact ⟨'[', _, rfl, by decide, by decide, by decide⟩
  | obj kvs =>
    cases kvs
    · exact ⟨'\x7b', _, rfl, by decide, by decide, by decide⟩
    · exact ⟨'\x7b', _, rfl, by decide, by decide, by decide⟩

theorem jsizeList_pos : ∀ xs : List JVal, 1 ≤ jsizeList xs := by
  intro xs
  cases xs <;> simp only [jsizeList] <;> omega

theorem jsizeObj_pos : ∀ kvs : List (String × JVal), 1 ≤ jsizeObj kvs := by
  intro kvs
  cases kvs <;> simp only [jsizeObj] <;> omega

theorem parseVal_num_head (f : Nat) (c : Char) (cs : List Char)
    (hws : isWsCh c = false) (h1 : c ≠ 'n') (h2 : c ≠ 't') (h3 : c ≠ 'f')
    (h4 : c ≠ '"') (h5 : c ≠ '[') (h6 : c ≠ '\x7b') :
    parseVal (f + 1) (c :: cs) = parseNum (c :: cs) := by
  simp only [parseVal]
  rw [skipWs_cons_not_ws _ _ hws]
  dsimp only []
  rw [if_neg h1, if_neg h2, if_neg h3, if_neg h4, if_neg h5, if_neg h6]

theorem parseItems_jdump (li lo : Nat) (rest : List Char) (hsafe : numSafe rest) :
    ∀ (xs : List JVal) (x : JVal) (fuel : Nat),
    (∀ y ∈ x :: xs, ∀ (lvl : Nat) (r : List Char) (f : Nat), jsize y ≤ f → numSafe r →
      parseVal f (jdumpVal lvl y ++ r) = some (y, r)) →
    jsizeList (x :: xs) ≤ fuel →
    parseItems fuel
        (jdumpVal li x ++ (jdumpItems li xs ++ ('\n' :: (pad lo ++ (']' :: rest)))))
      = some (x :: xs, rest) := by
  intro xs
  induction xs with
  | nil =>
    intro x fuel hP hsz
    have hx1 : 1 ≤ jsize x := jsize_pos x
    simp only [jsizeList] at hsz
    cases fuel with
    | zero => omega
    | succ f =>
      simp only [parseItems]
      have hR : numSafe (jdumpItems li [] ++ ('\n' :: (pad lo ++ (']' :: rest)))) := by
        rw [show jdumpItems li [] = [] from rfl, List.nil_append]
        exact numSafe_cons _ _ (by decide)
      rw [hP x (List.mem_cons_self _ _) li _ f (by omega) hR]
      dsimp only []
      have hskip : skipWs (jdumpItems li [] ++ ('\n' :: (pad lo ++ (']' :: rest))))
          = ']' :: rest := by
        rw [show jdumpItems li [] = [] from rfl, List.nil_append, skipWs_newline,
          skipWs_pad, skipWs_cons_not_ws _ _ (by decide)]
      rw [hskip]
      dsimp only []
      rw [if_neg (by decide : ¬ (']' = ',')), if_pos rfl]
  | cons y ys ih =>
    intro x fuel hP hsz
    have hx1 : 1 ≤ jsize x := jsize_pos x
    have hy1 : 1 ≤ jsize y := jsize_pos y
    have hys1 : 1 ≤ jsizeList ys := jsizeList_pos ys
    have hyy : jsizeList (y :: ys) = 1 + jsize y + jsizeList ys := rfl
    simp only [jsizeList] at hsz
    cases fuel with
    | zero => omega
    | succ f =>
      simp only [parseItems]
      have hitems : jdumpItems li (y :: ys)
          = ',' :: '\n' :: (pad li ++ jdumpVal li y ++ jdumpItems li ys) := rfl
      have hR : numSafe (jdumpItems li (y :: ys) ++ ('\n' :: (pad lo ++ (']' :: rest)))) := by
        rw [hitems, List.cons_append]
        exact numSafe_cons _ _ (by decide)
      rw [hP x (List.mem_cons_self _ _) li _ f (by omega) hR]
      dsimp only []
      have hskip : skipWs (jdumpItems li (y :: ys) ++ ('\n' :: (pad lo ++ (']' :: rest))))
          = ',' :: ('\n' :: (pad li ++ jdumpVal li y ++ jdumpItems li ys)
              ++ ('\n' :: (pad lo ++ (']' :: rest)))) := by
        rw [hitems, List.cons_append, List.cons_append,
          skipWs_cons_not_ws _ _ (by decide)]
      rw [hskip]
      dsimp only []
      rw [if_pos rfl]
      have hnext : ('\n' :: (pad li ++ jdumpVal li y ++ jdumpItems li ys)
            ++ ('\n' :: (pad lo ++ (']' :: rest))))
          = '\n' :: (pad li ++ (jdumpVal li y
              ++ (jdumpItems li ys ++ ('\n' :: (pad lo ++ (']' :: rest)))))) := by
        simp [List.append_assoc]
      rw [hnext]
      obtain ⟨c₀, cs₀, hc₀, hws₀, _, _⟩ := jdumpVal_head li y
      have hskip2 : skipWs ('\n' :: (pad li ++ (jdumpVal li y
            ++ (jdumpItems li ys ++ ('\n' :: (pad lo ++ (']' :: rest)))))))
          = jdumpVal li y ++ (jdumpItems li ys ++ ('\n' :: (pad lo ++ (']' :: rest)))) := by
        rw [skipWs_newline, skipWs_pad, hc₀, List.cons_append,
          skipWs_cons_not_ws _ _ hws₀]
      have hstep : parseItems f ('\n' :: (pad li ++ (jdumpVal li y
            ++ (jdumpItems li ys ++ ('\n' :: (pad lo ++ (']' :: rest)))))))
          = parseItems f (jdumpVal li y
              ++ (jdumpItems li ys ++ ('\n' :: (pad lo ++ (']' :: rest))))) := by
        rw [← parseItems_skipWs f ('\n' :: _), hskip2]
      rw [hstep, ih y f (fun z hz => hP z (List.mem_cons_of_mem _ hz)) (by omega)]

theorem parseFields_jdump (li lo : Nat) (rest : List Char) (hsafe : numSafe rest) :
    ∀ (kvs : List (String × JVal)) (kv : String × JVal) (fuel : Nat),
    (∀ w ∈ kv :: kvs, ∀ (lvl : Nat) (r : List Char) (f : Nat), jsize w.2 ≤ f → numSafe r →
      parseVal f (jdumpVal lvl w.2 ++ r) = some (w.2, r)) →
    jsizeObj (kv :: kvs) ≤ fuel →
    parseFields fuel
        (jdumpField li kv ++ (jdumpFields li kvs ++ ('\n' :: (pad lo ++ ('\x7d' :: rest)))))
      = some (kv :: kvs, rest) := by
  intro kvs
  induction kvs with
  | nil =>
    intro kv fuel hP hsz
    obtain ⟨k, v⟩ := kv
    obtain ⟨kd⟩ := k
    have hv1 : 1 ≤ jsize v := jsize_pos v
    simp only [jsizeObj] at hsz
    cases fuel with
    | zero => omega
    | succ f =>
      simp only [parseFields]
      have hfield : jdumpField li (String.mk kd, v)
          = '"' :: (escChars kd ++ ('"' :: ':' :: ' ' :: jdumpVal li v)) := rfl
      have hinput : jdumpField li (String.mk kd, v)
            ++ (jdumpFields li [] ++ ('\n' :: (pad lo ++ ('\x7d' :: rest))))
          = '"' :: (escChars kd
              ++ ('"' :: (':' :: ' ' :: (jdumpVal li v
                ++ ('\n' :: (pad lo ++ ('\x7d' :: rest))))))) := by
        rw [hfield, show jdumpFields li [] = [] from rfl, List.nil_append]
        simp [List.append_assoc]
      rw [hinput, skipWs_cons_not_ws _ _ (by decide)]
      dsimp only []
      rw [if_pos rfl, parseStringBody_escChars]
      dsimp only []
      rw [skipWs_cons_not_ws _ _ (by decide)]
      dsimp only []
      rw [if_pos rfl]
      have hpv : parseVal f (' ' :: (jdumpVal li v ++ ('\n' :: (pad lo ++ ('\x7d' :: rest)))))
          = some (v, '\n' :: (pad lo ++ ('\x7d' :: rest))) := by
        rw [← parseVal_skipWs, skipWs_space]
        obtain ⟨c₀, cs₀, hc₀, hws₀, _, _⟩ := jdumpVal_head li v
        rw [hc₀, List.cons_append, skipWs_cons_not_ws _ _ hws₀, ← List.cons_append, ← hc₀]
        exact hP (String.mk kd, v) (List.mem_cons_self _ _) li _ f
          (by dsimp only []; omega) (numSafe_cons _ _ (by decide))
      rw [hpv]
      dsimp only []
      rw [skipWs_newline, skipWs_pad, skipWs_cons_not_ws _ _ (by decide)]
      dsimp only []
      rw [if_neg (by decide : ¬ ('\x7d' = ',')), if_pos rfl]
  | cons w ws ih =>
    intro kv fuel hP hsz
    obtain ⟨k, v⟩ := kv
    obtain ⟨kd⟩ := k
    have hv1 : 1 ≤ jsize v := jsize_pos v
    have hw1 : 1 ≤ jsize w.2 := jsize_pos w.2
    have hws1 : 1 ≤ jsizeObj ws := jsizeObj_pos ws
    have hww : jsizeObj (w :: ws) = 1 + jsize w.2 + jsizeObj ws := rfl
    simp only [jsizeObj] at hsz
    cases fuel with
    | zero => omega
    | succ f =>
      simp only [parseFields]
      have hfields : jdumpFields li (w :: ws)
          = ',' :: '\n' :: (pad li ++ jdumpField li w ++ jdumpFields li ws) := rfl
      have hinput : jdumpField li (String.mk kd, v)
            ++ (jdumpFields li (w :: ws) ++ ('\n' :: (pad lo ++ ('\x7d' :: rest))))
          = '"' :: (escChars kd
              ++ ('"' :: (':' :: ' ' :: (jdumpVal li v
                ++ (',' :: '\n' :: (pad li ++ (jdumpField li w
                  ++ (jdumpFields li ws ++ ('\n' :: (pad lo ++ ('\x7d' :: rest)))))))))))
          := by
        rw [hfields]
        show ('"' :: (escChars kd ++ ('"' :: ':' :: ' ' :: jdumpVal li v))) ++ _ = _
        simp [List.append_assoc]
      rw [hinput, skipWs_cons_not_ws _ _ (by decide)]
      dsimp only []
      rw [if_pos rfl, parseStringBody_escChars]
      dsimp only []
      rw [skipWs_cons_not_ws _ _ (by decide)]
      dsimp only []
      rw [if_pos rfl]
      have hpv : parseVal f (' ' :: (jdumpVal li v
            ++ (',' :: '\n' :: (pad li ++ (jdumpField li w
              ++ (jdumpFields li ws ++ ('\n' :: (pad lo ++ ('\x7d' :: rest)))))))))
          = some (v, ',' :: '\n' :: (pad li ++ (jdumpField li w
              ++ (jdumpFields li ws ++ ('\n' :: (pad lo ++ ('\x7d' :: rest))))))) := by
        rw [← parseVal_skipWs, skipWs_space]
        obtain ⟨c₀, cs₀, hc₀, hws₀, _, _⟩ := jdumpVal_head li v
        rw [hc₀, List.cons_append, skipWs_cons_not_ws _ _ hws₀, ← List.cons_append, ← hc₀]
        exact hP (String.mk kd, v) (List.mem_cons_self _ _) li _ f
          (by dsimp only []; omega) (numSafe_cons _ _ (by decide))
      rw [hpv]
      dsimp only []
      rw [skipWs_cons_not_ws _ _ (by decide)]
      dsimp only []
      rw [if_pos rfl]
      have hstep : parseFields f ('\n' :: (pad li ++ (jdumpField li w
            ++ (jdumpFields li ws ++ ('\n' :: (pad lo ++ ('\x7d' :: rest)))))))
          = parseFields f (jdumpField li w
              ++ (jdumpFields li ws ++ ('\n' :: (pad lo ++ ('\x7d' :: rest))))) := by
        rw [← parseFields_skipWs f ('\n' :: _), skipWs_newline, skipWs_pad]
        obtain ⟨kw, vw⟩ := w
        obtain ⟨kwd⟩ := kw
        rw [show jdumpField li (String.mk kwd, vw)
            = '"' :: (escChars kwd ++ ('"' :: ':' :: ' ' :: jdumpVal li vw)) from rfl,
          List.cons_append, skipWs_cons_not_ws _ _ (by decide)]
      rw [hstep, ih w f (fun z hz => hP z (List.mem_cons_of_mem _ hz)) (by omega)]

theorem parseVal_jdump : ∀ v : JVal, jwf v = true →
    ∀ (lvl : Nat) (rest : List Char) (fuel : Nat), jsize v ≤ fuel → numSafe rest →
    parseVal fuel (jdumpVal lvl v ++ rest) = some (v, rest) := by
  intro v
  induction v using jval_ind with
  | h0 =>
    intro _ lvl rest fuel hsz hsafe
    have h1 : jsize JVal.null = 1 := rfl
    cases fuel with
    | zero => omega
    | succ f =>
      show parseVal (f + 1) ('n' :: 'u' :: 'l' :: 'l' :: rest) = some (.null, rest)
      simp only [parseVal]
      rw [skipWs_cons_not_ws _ _ (by decide)]
      dsimp only []
      rw [if_pos rfl]
      rfl
  | h1 b =>
    intro _ lvl rest fuel hsz hsafe
    have h1 : jsize (JVal.bool b) = 1 := rfl
    cases fuel with
    | zero => omega
    | succ f =>
      cases b
      · show parseVal (f + 1) ('f' :: 'a' :: 'l' :: 's' :: 'e' :: rest)
            = some (.bool false, rest)
        simp only [parseVal]
        rw [skipWs_cons_not_ws _ _ (by decide)]
        dsimp only []
        rw [if_neg (by decide), if_neg (by decide), if_pos rfl]
        rfl
      · show parseVal (f + 1) ('t' :: 'r' :: 'u' :: 'e' :: rest) = some (.bool true, rest)
        simp only [parseVal]
        rw [skipWs_cons_not_ws _ _ (by decide)]
        dsimp only []
        rw [if_neg (by decide), if_pos rfl]
        rfl
  | h2 n =>
    intro _ lvl rest fuel hsz hsafe
    have h1 : jsize (JVal.int n) = 1 := rfl
    cases fuel with
    | zero => omega
    | succ f =>
      show parseVal (f + 1) (intChars n ++ rest) = some (.int n, rest)
      by_cases hn : n < 0
      · have hic : intChars n = '-' :: natChars (-n).toNat := by
          simp [intChars, hn]
        rw [hic, List.cons_append,
          parseVal_num_head f _ _ (by decide) (by decide) (by decide) (by decide)
            (by decide) (by decide) (by decide),
          ← List.cons_append, ← hic]
        exact parseNum_intChars n rest hsafe
      · obtain ⟨c, cs, hcons⟩ : ∃ c cs, natChars n.toNat = c :: cs := by
          cases hx : natChars n.toNat with
          | nil => exact absurd hx (natChars_ne_nil _)
          | cons c cs => exact ⟨c, cs, rfl⟩
        have hdig : isDigitCh c = true :=
          natChars_all_digits _ c (by rw [hcons]; exact List.mem_cons_self _ _)
        have hf := digit_facts c hdig
        have hic : intChars n = natChars n.toNat := by
          simp [intChars, hn]
        rw [hic, hcons, List.cons_append,
          parseVal_num_head f c _ hf.1 hf.2.1 hf.2.2.1 hf.2.2.2.1 hf.2.2.2.2.1
            hf.2.2.2.2.2.1 hf.2.2.2.2.2.2.1,
          ← List.cons_append, ← hcons, parseNum_natChars _ rest hsafe,
          Int.toNat_of_nonneg (by omega)]
  | h3 s =>
    intro _ lvl rest fuel hsz hsafe
    obtain ⟨sd⟩ := s
    have h1 : jsize (JVal.str (String.mk sd)) = 1 := rfl
    cases fuel with
    | zero => omega
    | succ f =>
      have hinput : jdumpVal lvl (.str (String.mk sd)) ++ rest
          = '"' :: (escChars sd ++ ('"' :: rest)) := by
        show ('"' :: (escChars sd ++ ['"'])) ++ rest = _
        simp [List.append_assoc]
      rw [hinput]
      simp only [parseVal]
      rw [skipWs_cons_not_ws _ _ (by decide)]
      dsimp only []
      rw [if_neg (by decide), if_neg (by decide), if_neg (by decide), if_pos rfl,
        parseStringBody_escChars]
  | h4 xs ih =>
    intro hwf lvl rest fuel hsz hsafe
    cases xs with
    | nil =>
      have h1 : jsize (JVal.arr []) = 2 := rfl
      cases fuel with
      | zero => omega
      | succ f =>
        show parseVal (f + 1) ('[' :: ']' :: rest) = some (.arr [], rest)
        simp only [parseVal]
        rw [skipWs_cons_not_ws _ _ (by decide)]
        dsimp only []
        rw [if_neg (by decide), if_neg (by decide), if_neg (by decide),
          if_neg (by decide), if_pos rfl, skipWs_cons_not_ws _ _ (by decide)]
        dsimp only []
        rw [if_pos rfl]
    | cons x xs₂ =>
      have hjw : jwfList (x :: xs₂) = true := hwf
      have h1 : jsize (JVal.arr (x :: xs₂)) = 1 + jsizeList (x :: xs₂) := rfl
      have h2 : 1 ≤ jsizeList (x :: xs₂) := jsizeList_pos _
      cases fuel with
      | zero => omega
      | succ f =>
        have hinput : jdumpVal lvl (.arr (x :: xs₂)) ++ rest
            = '[' :: '\n' :: (pad (lvl + 2) ++ (jdumpVal (lvl + 2) x
                ++ (jdumpItems (lvl + 2) xs₂ ++ ('\n' :: (pad lvl ++ (']' :: rest)))))) := by
          show ('[' :: '\n' :: (pad (lvl + 2) ++ jdumpVal (lvl + 2) x
              ++ jdumpItems (lvl + 2) xs₂ ++ '\n' :: (pad lvl ++ [']']))) ++ rest = _
          simp [List.append_assoc]
        rw [hinput]
        simp only [parseVal]
        rw [skipWs_cons_not_ws _ _ (by decide)]
        dsimp only []
        rw [if_neg (by decide), if_neg (by decide), if_neg (by decide),
          if_neg (by decide), if_pos rfl]
        obtain ⟨c₀, cs₀, hc₀, hws₀, hnb, _⟩ := jdumpVal_head (lvl + 2) x
        have hskip : skipWs ('\n' :: (pad (lvl + 2) ++ (jdumpVal (lvl + 2) x
              ++ (jdumpItems (lvl + 2) xs₂ ++ ('\n' :: (pad lvl ++ (']' :: rest)))))))
            = c₀ :: (cs₀ ++ (jdumpItems (lvl + 2) xs₂
                ++ ('\n' :: (pad lvl ++ (']' :: rest))))) := by
          rw [skipWs_newline, skipWs_pad, hc₀, List.cons_append,
            skipWs_cons_not_ws _ _ hws₀]
        rw [hskip]
        dsimp only []
        rw [if_neg hnb,
          show c₀ :: (cs₀ ++ (jdumpItems (lvl + 2) xs₂
              ++ ('\n' :: (pad lvl ++ (']' :: rest)))))
            = jdumpVal (lvl + 2) x ++ (jdumpItems (lvl + 2) xs₂
              ++ ('\n' :: (pad lvl ++ (']' :: rest))))
            from by rw [hc₀, List.cons_append],
          parseItems_jdump (lvl + 2) lvl rest hsafe xs₂ x f
            (fun y hy l r g hg hr => ih y hy (jwfList_mem _ hjw y hy) l r g hg hr)
            (by omega)]
  | h5 kvs ih =>
    intro hwf lvl rest fuel hsz hsafe
    cases kvs with
    | nil =>
      have h1 : jsize (JVal.obj []) = 2 := rfl
      cases fuel with
      | zero => omega
      | succ f =>
        show parseVal (f + 1) ('\x7b' :: '\x7d' :: rest) = some (.obj [], rest)
        simp only [parseVal]
        rw [skipWs_cons_not_ws _ _ (by decide)]
        dsimp only []
        rw [if_neg (by decide), if_neg (by decide), if_neg (by decide),
          if_neg (by decide), if_neg (by decide), if_pos rfl,
          skipWs_cons_not_ws _ _ (by decide)]
        dsimp only []
        rw [if_pos rfl]
    | cons kv kvs₂ =>
      have hand : (distinctKeys (pyKeys (kv :: kvs₂)) && jwfObj (kv :: kvs₂)) = true := hwf
      rw [Bool.and_eq_true] at hand
      have h1 : jsize (JVal.obj (kv :: kvs₂)) = 1 + jsizeObj (kv :: kvs₂) := rfl
      have h2 : 1 ≤ jsizeObj (kv :: kvs₂) := jsizeObj_pos _
      cases fuel with
      | zero => omega
      | succ f =>
        have hinput : jdumpVal lvl (.obj (kv :: kvs₂)) ++ rest
            = '\x7b' :: '\n' :: (pad (lvl + 2) ++ (jdumpField (lvl + 2) kv
                ++ (jdumpFields (lvl + 2) kvs₂
                  ++ ('\n' :: (pad lvl ++ ('\x7d' :: rest)))))) := by
          show ('\x7b' :: '\n' :: (pad (lvl + 2) ++ jdumpField (lvl + 2) kv
              ++ jdumpFields (lvl + 2) kvs₂ ++ '\n' :: (pad lvl ++ ['\x7d']))) ++ rest = _
          simp [List.append_assoc]
        rw [hinput]
        simp only [parseVal]
        rw [skipWs_cons_not_ws _ _ (by decide)]
        dsimp only []
        rw [if_neg (by decide), if_neg (by decide), if_neg (by decide),
          if_neg (by decide), if_neg (by decide), if_pos rfl]
        obtain ⟨kf, vf⟩ := kv
        obtain ⟨kfd⟩ := kf
        have hfhead : jdumpField (lvl + 2) (String.mk kfd, vf)
            = '"' :: (escChars kfd ++ ('"' :: ':' :: ' ' :: jdumpVal (lvl + 2) vf)) := rfl
        have hskip : skipWs ('\n' :: (pad (lvl + 2) ++ (jdumpField (lvl + 2) (String.mk kfd, vf)
              ++ (jdumpFields (lvl + 2) kvs₂ ++ ('\n' :: (pad lvl ++ ('\x7d' :: rest)))))))
            = '"' :: ((escChars kfd ++ ('"' :: ':' :: ' ' :: jdumpVal (lvl + 2) vf))
                ++ (jdumpFields (lvl + 2) kvs₂
                  ++ ('\n' :: (pad lvl ++ ('\x7d' :: rest))))) := by
          rw [skipWs_newline, skipWs_pad, hfhead, List.cons_append,
            skipWs_cons_not_ws _ _ (by decide)]
        rw [hskip]
        dsimp only []
        rw [if_neg (by decide),
          show '"' :: ((escChars kfd ++ ('"' :: ':' :: ' ' :: jdumpVal (lvl + 2) vf))
              ++ (jdumpFields (lvl + 2) kvs₂ ++ ('\n' :: (pad lvl ++ ('\x7d' :: rest)))))
            = jdumpField (lvl + 2) (String.mk kfd, vf)
              ++ (jdumpFields (lvl + 2) kvs₂ ++ ('\n' :: (pad lvl ++ ('\x7d' :: rest))))
            from by rw [hfhead, List.cons_append],
          parseFields_jdump (lvl + 2) lvl rest hsafe kvs₂ (String.mk kfd, vf) f
            (fun w hw l r g hg hr => ih w hw (jwfObj_mem _ hand.2 w hw) l r g hg hr)
            (by omega)]
        dsimp only []
        rw [dictify_nodup _ (distinctKeys_nodup _ hand.1)]

theorem jsizeList_le_len (li : Nat) : ∀ xs : List JVal,
    (∀ x ∈ xs, ∀ l, jsize x ≤ (jdumpVal l x).length) →
    jsizeList xs ≤ (jdumpItems li xs).length + 2 := by
  intro xs
  induction xs with
  | nil =>
    intro _
    show (1 : Nat) ≤ ([] : List Char).length + 2
    simp
  | cons x xs ih =>
    intro hall
    have h1 := hall x (List.mem_cons_self _ _) li
    have h2 := ih (fun y hy => hall y (List.mem_cons_of_mem _ hy))
    have hsz : jsizeList (x :: xs) = 1 + jsize x + jsizeList xs := rfl
    have hlen : (jdumpItems li (x :: xs)).length
        = 2 + (pad li).length + (jdumpVal li x).length + (jdumpItems li xs).length := by
      rw [show jdumpItems li (x :: xs)
          = ',' :: '\n' :: (pad li ++ jdumpVal li x ++ jdumpItems li xs) from rfl]
      simp [List.length_append]
      omega
    omega

theorem jsizeObj_le_len (li : Nat) : ∀ kvs : List (String × JVal),
    (∀ kv ∈ kvs, ∀ l, jsize kv.2 ≤ (jdumpVal l kv.2).length) →
    jsizeObj kvs ≤ (jdumpFields li kvs).length + 2 := by
  intro kvs
  induction kvs with
  | nil =>
    intro _
    show (1 : Nat) ≤ ([] : List Char).length + 2
    simp
  | cons kv kvs ih =>
    intro hall
    have h1 := hall kv (List.mem_cons_self _ _) li
    have h2 := ih (fun w hw => hall w (List.mem_cons_of_mem _ hw))
    have hsz : jsizeObj (kv :: kvs) = 1 + jsize kv.2 + jsizeObj kvs := rfl
    have hfl : (jdumpField li kv).length
        = 4 + (escChars kv.1.data).length + (jdumpVal li kv.2).length := by
      obtain ⟨k, v⟩ := kv
      obtain ⟨kd⟩ := k
      rw [show jdumpField li (String.mk kd, v)
          = '"' :: (escChars kd ++ ('"' :: ':' :: ' ' :: jdumpVal li v)) from rfl]
      simp [List.length_append]
      omega
    have hlen : (jdumpFields li (kv :: kvs)).length
        = 2 + (pad li).length + (jdumpField li kv).length + (jdumpFields li kvs).length := by
      rw [show jdumpFields li (kv :: kvs)
          = ',' :: '\n' :: (pad li ++ jdumpField li kv ++ jdumpFields li kvs) from rfl]
      simp [List.length_append]
      omega
    omega

theorem jsize_le_len : ∀ (v : JVal) (lvl : Nat), jsize v ≤ (jdumpVal lvl v).length := by
  intro v
  induction v using jval_ind with
  | h0 =>
    intro lvl
    show (1 : Nat) ≤ 4
    omega
  | h1 b =>
    intro lvl
    cases b
    · show (1 : Nat) ≤ 5
      omega
    · show (1 : Nat) ≤ 4
      omega
  | h2 n =>
    intro lvl
    show (1 : Nat) ≤ (intChars n).length
    have hne : intChars n ≠ [] := by
      unfold intChars
      split
      · exact List.cons_ne_nil _ _
      · exact natChars_ne_nil _
    have := List.length_pos.mpr hne
    omega
  | h3 s =>
    intro lvl
    show (1 : Nat) ≤ ('"' :: (escChars s.data ++ ['"'])).length
    simp
  | h4 xs ih =>
    intro lvl
    cases xs with
    | nil =>
      show (2 : Nat) ≤ 2
      omega
    | cons x xs =>
      have h1 := ih x (List.mem_cons_self _ _) (lvl + 2)
      have h2 := jsizeList_le_len (lvl + 2) xs (fun y hy l => ih y (List.mem_cons_of_mem _ hy) l)
      have hsz : jsize (JVal.arr (x :: xs)) = 1 + (1 + jsize x + jsizeList xs) := rfl
      have hlen : (jdumpVal lvl (JVal.arr (x :: xs))).length
          = 2 + (pad (lvl + 2)).length + (jdumpVal (lvl + 2) x).length
            + (jdumpItems (lvl + 2) xs).length + 2 + (pad lvl).length := by
        rw [show jdumpVal lvl (JVal.arr (x :: xs))
            = '[' :: '\n' :: (pad (lvl + 2) ++ jdumpVal (lvl + 2) x
              ++ jdumpItems (lvl + 2) xs ++ '\n' :: (pad lvl ++ [']'])) from rfl]
        simp [List.length_append]
        omega
      omega
  | h5 kvs ih =>
    intro lvl
    cases kvs with
    | nil =>
      show (2 : Nat) ≤ 2
      omega
    | cons kv kvs =>
      have h1 := ih kv (List.mem_cons_self _ _) (lvl + 2)
      have h2 := jsizeObj_le_len (lvl + 2) kvs (fun w hw l => ih w (List.mem_cons_of_mem _ hw) l)
      have hsz : jsize (JVal.obj (kv :: kvs)) = 1 + (1 + jsize kv.2 + jsizeObj kvs) := rfl
      have hfl : (jdumpField (lvl + 2) kv).length
          = 4 + (escChars kv.1.data).length + (jdumpVal (lvl + 2) kv.2).length := by
        obtain ⟨k, v⟩ := kv
        obtain ⟨kd⟩ := k
        rw [show jdumpField (lvl + 2) (String.mk kd, v)
            = '"' :: (escChars kd ++ ('"' :: ':' :: ' ' :: jdumpVal (lvl + 2) v)) from rfl]
        simp [List.length_append]
        omega
      have hlen : (jdumpVal lvl (JVal.obj (kv :: kvs))).length
          = 2 + (pad (lvl + 2)).length + (jdumpField (lvl + 2) kv).length
            + (jdumpFields (lvl + 2) kvs).length + 2 + (pad lvl).length := by
        rw [show jdumpVal lvl (JVal.obj (kv :: kvs))
            = '\x7b' :: '\n' :: (pad (lvl + 2) ++ jdumpField (lvl + 2) kv
              ++ jdumpFields (lvl + 2) kvs ++ '\n' :: (pad lvl ++ ['\x7d'])) from rfl]
        simp [List.length_append]
        omega
      omega

theorem jloads_jdumps (v : JVal) (h : jwf v = true) : jloads (jdumps v) = some v := by
  have hb := jsize_le_len v 0
  have hmain := parseVal_jdump v h 0 [] ((jdumpVal 0 v).length + 1) (by omega) trivial
  rw [List.append_nil] at hmain
  unfold jloads jdumps
  rw [show (String.mk (jdumpVal 0 v)).data = jdumpVal 0 v from rfl, hmain]
  rfl

/-! ## Claim theorems -/

/-- C4 counterexample: the payload whose sampled entries carry the release
dates `"2020-01-01"` and `""` yields `oldest = "2020-01-01"`: the empty
string is a non-null `released_at` of a sampled entry, yet
`oldest ≤ ""` fails — the code skips every falsy date, not only the absent
ones. -/
theorem date_range_empty_string_date :
    dateRangeOf (explore_sets (some (JVal.obj [("data", JVal.arr [
        JVal.obj [("released_at", JVal.str "2020-01-01")],
        JVal.obj [("released_at", JVal.str "")]])])) 2)
      = some (some "2020-01-01", some "2020-01-01") ∧
    pyGet [("released_at", JVal.str "")] "released_at" = JVal.str "" ∧
    ¬ ("2020-01-01" ≤ "") :=
  ⟨rfl, rfl, not_le.mpr (String.lt_iff_toList_lt.mpr (List.nil_lt_cons _ _))⟩

/-- C4 (amended): in the summary returned by `explore_sets`,
`date_range.oldest` is ≤ every sampled entry's non-null **and non-empty**
`released_at` string and every such string is ≤ `date_range.newest` (Python
string comparison); a sampled entry whose `released_at` is absent — or
falsy, like the empty string — leaves `oldest` and `newest` unchanged. -/
theorem date_range_bounds (kvs : List (String × JVal)) (entries : List JVal)
    (sampled : List (List (String × JVal))) (limit : Int) (o n : Option String)
    (h1 : dataEntries kvs = some entries)
    (h2 : allObjs (pySliceTo entries limit) = some sampled)
    (h3 : dateRangeOf (explore_sets (some (.obj kvs)) limit) = some (o, n)) :
    (∀ e ∈ sampled, ∀ d, pyGet e "released_at" = JVal.str d → d ≠ "" →
      (∃ o₂, o = some o₂ ∧ o₂ ≤ d) ∧ (∃ n₂, n = some n₂ ∧ d ≤ n₂)) ∧
    (∀ a : SetsAnalysis, ∀ e : List (String × JVal),
      pyTruthy (pyGet e "released_at") = false →
      ∃ a₂, setsStep a e = some a₂ ∧ a₂.oldest = a.oldest ∧ a₂.newest = a.newest) := by
  constructor
  · intro e he d hget hd
    cases hx : explore_sets (some (JVal.obj kvs)) limit with
    | error m => rw [hx] at h3; cases h3
    | crash => rw [hx] at h3; cases h3
    | summary a =>
      rw [hx] at h3
      simp only [dateRangeOf, Option.some_inj, Prod.mk.injEq] at h3
      have hl := explore_sets_summary kvs entries sampled limit a h1 h2 hx
      have hb := setsLoop_dates_bound sampled (setsInit kvs entries) a hl
        (by intro s hs; cases hs) (by intro s hs; cases hs) e he d hget hd
      rw [← h3.1, ← h3.2]
      exact hb
  · intro a e hfalsy
    have hstep : setsStep a e = some { a with
        sample_sets := a.sample_sets ++ [mkSetInfo e]
        set_types := setAdd a.set_types (pyGet e "set_type") } := by
      rw [setsStep, if_neg (by rw [hfalsy]; exact Bool.false_ne_true)]
    exact ⟨_, hstep, rfl, rfl⟩

/-- Witness for C4 at a two-entry payload, one entry dated and one without a
`released_at`. -/
theorem date_range_bounds_witness :
    (∃ o₂, (some "2023-01-01" : Option String) = some o₂ ∧ o₂ ≤ "2023-01-01") ∧
    (∃ n₂, (some "2023-01-01" : Option String) = some n₂ ∧ "2023-01-01" ≤ n₂) := by
  have h := date_range_bounds
    [("data", JVal.arr [
      JVal.obj [("released_at", JVal.str "2023-01-01")],
      JVal.obj [("code", JVal.str "mh1")]])]
    [JVal.obj [("released_at", JVal.str "2023-01-01")],
      JVal.obj [("code", JVal.str "mh1")]]
    [[("released_at", JVal.str "2023-01-01")], [("code", JVal.str "mh1")]]
    5 (some "2023-01-01") (some "2023-01-01") rfl rfl rfl
  exact h.1 [("released_at", JVal.str "2023-01-01")] (List.mem_cons_self _ _)
    "2023-01-01" rfl (by decide)

/-- C3 counterexample: for the one-entry collection and requested limit
`-1`, the Python slice `data[:limit]` drops from the back, so `sample_sets`
is empty — its length `0` is not `min(N, L) = min(1, -1) = -1`. -/
theorem sample_sets_negative_limit :
    sampleLenOf (explore_sets
        (some (JVal.obj [("data", JVal.arr [JVal.obj [("code", JVal.str "a")]])])) (-1))
      = some 0 ∧
    min (1 : Int) (-1) ≠ 0 :=
  ⟨rfl, by decide⟩

/-- C3 (amended): for every set-collection payload whose collection field
contains `N ≥ 0` entries and every requested limit `L ≥ 0`, the summary
returned by `explore_sets` has `sample_sets` of length exactly `min(N, L)`,
built from the front of the collection, and `total_sets = N`; a missing
collection field defaults to the empty collection (so `total_sets = 0`)
rather than failing.  (For `L < 0` the Python slice instead keeps the first
`max(N - |L|, 0)` entries, per the counterexample.) -/
theorem sample_sets_length_min (kvs : List (String × JVal)) (entries : List JVal)
    (sampled : List (List (String × JVal))) (limit : Int)
    (h1 : dataEntries kvs = some entries)
    (h2 : allObjs (pySliceTo entries limit) = some sampled)
    (h3 : ∃ a, explore_sets (some (.obj kvs)) limit = .summary a)
    (h4 : 0 ≤ limit) :
    totalSetsOf (explore_sets (some (.obj kvs)) limit) = some entries.length ∧
    sampleSetsOf (explore_sets (some (.obj kvs)) limit) = some (sampled.map mkSetInfo) ∧
    pySliceTo entries limit = entries.take limit.toNat ∧
    sampleLenOf (explore_sets (some (.obj kvs)) limit)
      = some (min entries.length limit.toNat) ∧
    ((min entries.length limit.toNat : Int) = min (entries.length : Int) limit) ∧
    (∀ kv₂ : List (String × JVal), "data" ∉ pyKeys kv₂ → dataEntries kv₂ = some []) := by
  obtain ⟨a, ha⟩ := h3
  have hl := explore_sets_summary kvs entries sampled limit a h1 h2 ha
  obtain ⟨hss, hts, _⟩ := setsLoop_some sampled (setsInit kvs entries) a hl
  have hslice : pySliceTo entries limit = entries.take limit.toNat := by
    unfold pySliceTo
    rw [if_pos h4]
  have hlen : sampled.length = min entries.length limit.toNat := by
    have := allObjs_length _ _ h2
    rw [hslice] at this
    rw [this, List.length_take, Nat.min_comm]
  refine ⟨?_, ?_, hslice, ?_, ?_, ?_⟩
  · rw [ha]
    simp only [totalSetsOf]
    rw [hts]
    rfl
  · rw [ha]
    simp only [sampleSetsOf]
    rw [hss]
    rfl
  · rw [ha]
    simp only [sampleLenOf]
    rw [hss]
    simp [hlen, setsInit]
  · rw [Int.toNat_of_nonneg h4]
  · intro kv₂ hk
    unfold dataEntries pyGetD
    cases hf : kv₂.find? (fun kv => kv.1 == "data") with
    | none => rfl
    | some kv =>
      exfalso
      apply hk
      have hmem := List.mem_of_find?_eq_some hf
      have hkey : kv.1 = "data" := by
        have := List.find?_some hf
        simpa using this
      unfold pyKeys
      rw [← hkey]
      exact List.mem_map_of_mem Prod.fst hmem

/-- Witness for C3 at a two-entry collection with limit `5`. -/
theorem sample_sets_length_min_witness :
    totalSetsOf (explore_sets
        (some (JVal.obj [("data", JVal.arr [JVal.obj [("code", JVal.str "inr")],
          JVal.obj [("code", JVal.str "mh1")]])])) 5) = some 2 ∧
    sampleLenOf (explore_sets
        (some (JVal.obj [("data", JVal.arr [JVal.obj [("code", JVal.str "inr")],
          JVal.obj [("code", JVal.str "mh1")]])])) 5) = some (min 2 5) := by
  have h := sample_sets_length_min
    [("data", JVal.arr [JVal.obj [("code", JVal.str "inr")],
      JVal.obj [("code", JVal.str "mh1")]])]
    [JVal.obj [("code", JVal.str "inr")], JVal.obj [("code", JVal.str "mh1")]]
    [[("code", JVal.str "inr")], [("code", JVal.str "mh1")]]
    5 rfl rfl ⟨_, rfl⟩ (by decide)
  exact ⟨by rw [h.1]; rfl, by rw [h.2.2.2.1]; decide⟩

/-- C5: when the fetch fails (`_make_request` returned `None`), `explore_sets`
and `explore_cards` both return the `{"error": msg}` dictionary with a
human-readable message, and no exception escapes (the functions are total and
the outcome is the `error` branch, not `crash`). -/
theorem fetch_failure_returns_error (sc : String) (limit : Int) :
    explore_sets none limit = .error "Falha ao obter dados dos sets" ∧
    explore_cards sc none limit = .error ("Falha ao obter cartas do set " ++ sc) :=
  ⟨rfl, rfl⟩

/-- C6: on a transport-level failure (connection error, timeout, non-2xx
status — all raised as `RequestException` by `session.get` or
`raise_for_status`) or a JSON-decode failure of the body, `_make_request`
returns `None` and logs an error; no exception reaches the caller. -/
theorem make_request_fails_soft (ep : String) (ps : Option (List (String × String)))
    (msg : String) (outcome : HttpOutcome)
    (h : outcome = .transportError msg ∨ outcome = .badJson msg) :
    (make_request ep ps outcome).1 = none ∧
    ∃ m, LogEntry.mk .error m ∈ (make_request ep ps outcome).2 := by
  rcases h with h | h <;> subst h
  · exact ⟨rfl,
      "Erro na requisição para " ++ ("https://api.scryfall.com" ++ ep) ++ ": " ++ msg,
      by simp [make_request]⟩
  · exact ⟨rfl,
      "Erro ao decodificar JSON de " ++ ("https://api.scryfall.com" ++ ep) ++ ": " ++ msg,
      by simp [make_request]⟩

/-- Witness for C6 at a concrete endpoint and timeout failure. -/
theorem make_request_fails_soft_witness :
    (make_request "/sets" none (.transportError "timeout")).1 = none ∧
    ∃ m, LogEntry.mk .error m ∈ (make_request "/sets" none (.transportError "timeout")).2 :=
  make_request_fails_soft "/sets" none "timeout" _ (Or.inl rfl)

/-- C10: a fetch that succeeds but yields a falsy JSON value (the empty
object in particular, but also `null`, `false`, `0`, `""`, `[]`) fails the
`if not sets_data` / `if not cards_data` guard and takes the same error
branch as an outright fetch failure. -/
theorem falsy_payload_takes_error_branch (v : JVal) (sc : String) (limit : Int)
    (h : pyTruthy v = false) :
    explore_sets (some v) limit = .error "Falha ao obter dados dos sets" ∧
    explore_cards sc (some v) limit = .error ("Falha ao obter cartas do set " ++ sc) := by
  constructor <;> simp [explore_sets, explore_cards, h]

/-- Witness for C10 at the empty JSON object. -/
theorem falsy_payload_takes_error_branch_witness :
    pyTruthy (JVal.obj []) = false ∧
    explore_sets (some (JVal.obj [])) 20 = .error "Falha ao obter dados dos sets" ∧
    explore_cards "inr" (some (JVal.obj [])) 5 =
      .error ("Falha ao obter cartas do set " ++ "inr") :=
  ⟨rfl, (falsy_payload_takes_error_branch (JVal.obj []) "inr" 20 rfl).1,
    (falsy_payload_takes_error_branch (JVal.obj []) "inr" 5 rfl).2⟩

/-- C8 counterexample: a sampled entry without a `set_type` field makes
`set_types.add(set_data.get('set_type'))` insert Python `None`, so the
materialized `set_types` list contains a non-string element. -/
theorem set_types_null_element :
    setTypesOf (explore_sets
        (some (JVal.obj [("data", JVal.arr [JVal.obj [("code", JVal.str "x")]])])) 5)
      = some [JVal.null] ∧
    isStr JVal.null = false :=
  ⟨rfl, rfl⟩

/-- C8 (amended): every element of the `set_types` sequence in the summary
returned by `explore_sets` is exactly the `set_type` field value of some
sampled entry — a string whenever that field holds a string, but the
`None`/null marker when a sampled entry lacks the field, so `set_types` is
not a set of strings in that case. -/
theorem set_types_from_samples (kvs : List (String × JVal)) (entries : List JVal)
    (sampled : List (List (String × JVal))) (limit : Int) (ts : List JVal)
    (h1 : dataEntries kvs = some entries)
    (h2 : allObjs (pySliceTo entries limit) = some sampled)
    (h3 : setTypesOf (explore_sets (some (.obj kvs)) limit) = some ts) :
    ∀ t ∈ ts, ∃ e ∈ sampled, t = pyGet e "set_type" := by
  intro t ht
  cases hx : explore_sets (some (JVal.obj kvs)) limit with
  | error m => rw [hx] at h3; cases h3
  | crash => rw [hx] at h3; cases h3
  | summary a =>
    rw [hx] at h3
    simp only [setTypesOf, Option.some_inj] at h3
    have hl := explore_sets_summary kvs entries sampled limit a h1 h2 hx
    rcases setsLoop_set_types sampled (setsInit kvs entries) a hl t (h3 ▸ ht)
      with hinit | hfound
    · cases hinit
    · exact hfound

/-- Witness for C8 at a one-entry payload whose entry has a string
`set_type`. -/
theorem set_types_from_samples_witness :
    ∃ e ∈ [[("set_type", JVal.str "expansion")]],
      JVal.str "expansion" = pyGet e "set_type" :=
  set_types_from_samples
    [("data", JVal.arr [JVal.obj [("set_type", JVal.str "expansion")]])]
    [JVal.obj [("set_type", JVal.str "expansion")]]
    [[("set_type", JVal.str "expansion")]]
    5 [JVal.str "expansion"] rfl rfl rfl
    (JVal.str "expansion") (List.mem_singleton.mpr rfl)

/-- C1 counterexample: the code splits `type_line` on the ASCII hyphen `'-'`
only; `"Creature — Human Wizard"` contains an em-dash, not a hyphen, so it
buckets to the whole (trimmed) string, not to `"Creature"`. -/
theorem card_types_em_dash_not_split :
    cardTypesOf (explore_cards "inr" (some (JVal.obj [("data", JVal.arr [
        JVal.obj [("type_line", JVal.str "Creature — Human Wizard")]])])) 1)
      = some [JVal.str "Creature — Human Wizard"] ∧
    "Creature — Human Wizard" ≠ "Creature" :=
  ⟨rfl, by decide⟩

/-- C1 (amended): every element of `card_types` equals the
whitespace-trimmed prefix of some sampled card's truthy `type_line` taken
before its first **ASCII hyphen `'-'`** (the whole trimmed string when no
hyphen occurs — in particular `"Creature — Human Wizard"`, whose separator
is an em-dash, buckets to itself), no element contains `'-'`, and a card
whose `type_line` is absent (or falsy) contributes nothing. -/
theorem card_types_buckets (sc : String) (kvs : List (String × JVal))
    (entries : List JVal) (sampled : List (List (String × JVal))) (limit : Int)
    (ts : List JVal)
    (h1 : dataEntries kvs = some entries)
    (h2 : allObjs (pySliceTo entries limit) = some sampled)
    (h3 : cardTypesOf (explore_cards sc (some (.obj kvs)) limit) = some ts) :
    ∀ t ∈ ts,
      (∃ c ∈ sampled, ∃ tl, pyGet c "type_line" = JVal.str tl ∧
        pyTruthy (JVal.str tl) = true ∧ t = JVal.str (typeBucket tl)) ∧
      (∀ s, t = JVal.str s → '-' ∉ s.data) := by
  intro t ht
  cases hx : explore_cards sc (some (JVal.obj kvs)) limit with
  | error m => rw [hx] at h3; cases h3
  | crash => rw [hx] at h3; cases h3
  | summary a =>
    rw [hx] at h3
    simp only [cardTypesOf, Option.some_inj] at h3
    have hl := explore_cards_summary sc kvs entries sampled limit a h1 h2 hx
    rcases cardsLoop_card_types sampled (cardsInit kvs) a hl t (h3 ▸ ht)
      with hinit | ⟨c, hc, tl, heq, htr, hb⟩
    · cases hinit
    · refine ⟨⟨c, hc, tl, heq, htr, hb⟩, ?_⟩
      intro s hs
      rw [hb, JVal.str.injEq] at hs
      rw [← hs]
      exact hyphen_not_mem_typeBucket tl

/-- Witness for C1 at a one-card payload with `type_line = "Instant"`. -/
theorem card_types_buckets_witness :
    (∃ c ∈ [[("type_line", JVal.str "Instant")]], ∃ tl,
      pyGet c "type_line" = JVal.str tl ∧ pyTruthy (JVal.str tl) = true ∧
      JVal.str "Instant" = JVal.str (typeBucket tl)) ∧
    (∀ s, JVal.str "Instant" = JVal.str s → '-' ∉ s.data) :=
  card_types_buckets "inr"
    [("data", JVal.arr [JVal.obj [("type_line", JVal.str "Instant")]])]
    [JVal.obj [("type_line", JVal.str "Instant")]]
    [[("type_line", JVal.str "Instant")]]
    5 [JVal.str "Instant"] rfl rfl rfl
    (JVal.str "Instant") (List.mem_singleton.mpr rfl)

/-- C9: as a set, `colors` in the summary returned by `explore_cards` equals
the deduplicated union of the sampled cards' color lists: a value belongs to
`colors` exactly when it belongs to the `colors` array of some sampled card.
A card with an empty (falsy) or absent color list contributes no elements. -/
theorem colors_union_of_sampled (sc : String) (kvs : List (String × JVal))
    (entries : List JVal) (sampled : List (List (String × JVal))) (limit : Int)
    (cls : List JVal)
    (h1 : dataEntries kvs = some entries)
    (h2 : allObjs (pySliceTo entries limit) = some sampled)
    (h3 : colorsOf (explore_cards sc (some (.obj kvs)) limit) = some cls) :
    ∀ x, x ∈ cls ↔ ∃ c ∈ sampled, ∃ xs, pyGet c "colors" = JVal.arr xs ∧ x ∈ xs := by
  intro x
  cases hx : explore_cards sc (some (JVal.obj kvs)) limit with
  | error m => rw [hx] at h3; cases h3
  | crash => rw [hx] at h3; cases h3
  | summary a =>
    rw [hx] at h3
    simp only [colorsOf, Option.some_inj] at h3
    have hl := explore_cards_summary sc kvs entries sampled limit a h1 h2 hx
    rw [← h3, cardsLoop_colors sampled (cardsInit kvs) a hl x]
    constructor
    · intro hc
      rcases hc with hc | hc
      · cases hc
      · exact hc
    · exact Or.inr

/-- Witness for C9 at a one-card payload with colors `["R"]`. -/
theorem colors_union_of_sampled_witness :
    JVal.str "R" ∈ [JVal.str "R"] ↔
      ∃ c ∈ [[("colors", JVal.arr [JVal.str "R"])]], ∃ xs,
        pyGet c "colors" = JVal.arr xs ∧ JVal.str "R" ∈ xs :=
  colors_union_of_sampled "inr"
    [("data", JVal.arr [JVal.obj [("colors", JVal.arr [JVal.str "R"])]])]
    [JVal.obj [("colors", JVal.arr [JVal.str "R"])]]
    [[("colors", JVal.arr [JVal.str "R"])]]
    5 [JVal.str "R"] rfl rfl rfl (JVal.str "R")

/-- C7: persisting a summary with `save_exploration_results` writes the
`json.dump(results, indent=2, ensure_ascii=False)` serialization under
`data/exploration/<filename>`, and parsing that text back with `json.loads`
returns the original in-memory record — the write/parse round trip is the
identity on summaries.  The `jwf` hypothesis (objects have distinct keys,
recursively) marks the domain on which our association-list objects coincide
with Python dicts; every dict the script builds or receives from
`json.loads` satisfies it. -/
theorem save_roundtrip (dirs : List String) (fn : String) (v : JVal)
    (h : jwf v = true) :
    (save_exploration_results dirs true v fn).written
      = some ("data/exploration/" ++ fn, jdumps v) ∧
    jloads (jdumps v) = some v :=
  ⟨rfl, jloads_jdumps v h⟩

/-- Witness for C7 at a small summary-shaped record (nested containers, a
null, a non-ASCII string). -/
theorem save_roundtrip_witness :
    jwf (JVal.obj [("total_sets", JVal.int 2),
      ("set_types", JVal.arr [JVal.str "expansão", JVal.null]),
      ("date_range", JVal.obj [("oldest", JVal.null)])]) = true ∧
    (save_exploration_results [] true (JVal.obj [("total_sets", JVal.int 2),
      ("set_types", JVal.arr [JVal.str "expansão", JVal.null]),
      ("date_range", JVal.obj [("oldest", JVal.null)])]) "sets_analysis.json").written
      = some ("data/exploration/" ++ "sets_analysis.json",
          jdumps (JVal.obj [("total_sets", JVal.int 2),
            ("set_types", JVal.arr [JVal.str "expansão", JVal.null]),
            ("date_range", JVal.obj [("oldest", JVal.null)])])) ∧
    jloads (jdumps (JVal.obj [("total_sets", JVal.int 2),
      ("set_types", JVal.arr [JVal.str "expansão", JVal.null]),
      ("date_range", JVal.obj [("oldest", JVal.null)])]))
      = some (JVal.obj [("total_sets", JVal.int 2),
          ("set_types", JVal.arr [JVal.str "expansão", JVal.null]),
          ("date_range", JVal.obj [("oldest", JVal.null)])]) := by
  have h : jwf (JVal.obj [("total_sets", JVal.int 2),
      ("set_types", JVal.arr [JVal.str "expansão", JVal.null]),
      ("date_range", JVal.obj [("oldest", JVal.null)])]) = true := by decide
  exact ⟨h, (save_roundtrip [] "sets_analysis.json" _ h).1,
    (save_roundtrip [] "sets_analysis.json" _ h).2⟩

/-- C2 counterexample: the persister returns the same value (`None`) whether
the write failed or succeeded — there is no failure indicator a caller could
observe.  (`save_exploration_results` has no `return` statement at all.) -/
theorem save_failure_return_equals_success_return :
    (save_exploration_results [] false (JVal.str "x") "sets_analysis.json").retval
      = (save_exploration_results [] true (JVal.str "x") "sets_analysis.json").retval ∧
    (save_exploration_results [] false (JVal.str "x") "sets_analysis.json").retval
      = JVal.null :=
  ⟨rfl, rfl⟩

/-- C2 amended: the persister first ensures `data/exploration` and its parent
exist (idempotently: a repeated call leaves the directory set unchanged), and
on an I/O failure during the write it logs the error and returns normally
(the `except Exception` clause swallows the exception) — but it returns the
same `None` as on success, not a distinguishing failure indicator. -/
theorem save_creates_dir_logs_and_returns_none (dirs : List String) (v : JVal)
    (fn : String) (writeOk writeOk₂ : Bool) :
    "data" ∈ (save_exploration_results dirs writeOk v fn).dirs ∧
    "data/exploration" ∈ (save_exploration_results dirs writeOk v fn).dirs ∧
    (save_exploration_results
        (save_exploration_results dirs writeOk v fn).dirs writeOk₂ v fn).dirs
      = (save_exploration_results dirs writeOk v fn).dirs ∧
    (save_exploration_results dirs false v fn).log
      = [⟨.error, "Erro ao salvar " ++ ("data/exploration/" ++ fn)⟩] ∧
    (save_exploration_results dirs writeOk v fn).retval = JVal.null := by
  have hd : ∀ ds wk, (save_exploration_results ds wk v fn).dirs
      = addDir (addDir ds "data") "data/exploration" := by
    intro ds wk
    unfold save_exploration_results
    cases wk <;> rfl
  refine ⟨?_, ?_, ?_, ?_, ?_⟩
  · rw [hd]
    exact mem_addDir_of_mem _ _ _ (mem_addDir_self dirs "data")
  · rw [hd]
    exact mem_addDir_self _ _
  · have h1 : "data" ∈ (save_exploration_results dirs writeOk v fn).dirs := by
      rw [hd]
      exact mem_addDir_of_mem _ _ _ (mem_addDir_self dirs "data")
    have h2 : "data/exploration" ∈ (save_exploration_results dirs writeOk v fn).dirs := by
      rw [hd]
      exact mem_addDir_self _ _
    rw [hd _ writeOk₂, addDir_idem _ _ h1, addDir_idem _ _ h2, hd]
  · rfl
  · unfold save_exploration_results
    cases writeOk <;> rfl

end ApiExplorer
